import Mathlib

/-!
Formal model of the arbiter paper-trading core.

The TypeScript sources are embedded shallowly over `ℚ`: JavaScript number
arithmetic is modelled by exact rational arithmetic, and
`Number((x).toFixed(d))` is modelled by rounding half-up at `d` decimal
places.  Database reads and HTTP fetches are passed in as explicit
environment values; database writes are returned as values.
-/

namespace Arbiter

/-- Rounding half-up, `⌊x + 1/2⌋`, written out on the numerator and
denominator so that it evaluates. -/
def jsRound (x : ℚ) : ℤ :=
  let y := x + 1 / 2
  y.num / (y.den : ℤ)

theorem jsRound_eq_round (x : ℚ) : jsRound x = round x := by
  rw [round_eq, Rat.floor_def]
  rfl

/-- JS `Number((x).toFixed(d))` modelled over `ℚ`: round to `d` decimal
places (half-up on the scaled value). -/
def roundTo (d : ℕ) (x : ℚ) : ℚ :=
  ((jsRound (x * (10 : ℚ) ^ d) : ℤ) : ℚ) / (10 : ℚ) ^ d

theorem roundTo_eq_round (d : ℕ) (x : ℚ) :
    roundTo d x = ((round (x * (10 : ℚ) ^ d) : ℤ) : ℚ) / (10 : ℚ) ^ d := by
  rw [roundTo, jsRound_eq_round]

/-- `Number((x).toFixed(2))`. -/
def round2 (x : ℚ) : ℚ := roundTo 2 x

/-- `Number((x).toFixed(4))`. -/
def round4 (x : ℚ) : ℚ := roundTo 4 x

/-- `Number((x).toFixed(8))`. -/
def round8 (x : ℚ) : ℚ := roundTo 8 x

theorem round_mono_rat {x y : ℚ} (h : x ≤ y) : round x ≤ round y := by
  rw [round_eq, round_eq]
  exact Int.floor_le_floor (by linarith)

theorem roundTo_mono {d : ℕ} {x y : ℚ} (h : x ≤ y) : roundTo d x ≤ roundTo d y := by
  rw [roundTo_eq_round, roundTo_eq_round]
  have hp : (0 : ℚ) < (10 : ℚ) ^ d := by positivity
  have hr : round (x * (10 : ℚ) ^ d) ≤ round (y * (10 : ℚ) ^ d) :=
    round_mono_rat (by nlinarith)
  have hr' : ((round (x * (10 : ℚ) ^ d) : ℤ) : ℚ) ≤ ((round (y * (10 : ℚ) ^ d) : ℤ) : ℚ) := by
    exact_mod_cast hr
  gcongr

theorem roundTo_grid (d : ℕ) (k : ℤ) : roundTo d ((k : ℚ) / (10 : ℚ) ^ d) = (k : ℚ) / (10 : ℚ) ^ d := by
  rw [roundTo_eq_round]
  have hp : ((10 : ℚ) ^ d) ≠ 0 := by positivity
  rw [div_mul_cancel₀ _ hp, round_intCast]

theorem roundTo_nonneg {d : ℕ} {x : ℚ} (h : 0 ≤ x) : 0 ≤ roundTo d x := by
  have h0 : roundTo d 0 = 0 := by
    rw [roundTo_eq_round]
    norm_num
  calc (0 : ℚ) = roundTo d 0 := h0.symm
    _ ≤ roundTo d x := roundTo_mono h

theorem roundTo_pos {d : ℕ} {x : ℚ} (h : 1 / (2 * (10 : ℚ) ^ d) ≤ x) :
    0 < roundTo d x := by
  rw [roundTo_eq_round]
  have hp : (0 : ℚ) < (10 : ℚ) ^ d := by positivity
  have h1 : (1 : ℤ) ≤ round (x * (10 : ℚ) ^ d) := by
    rw [round_eq, Int.le_floor]
    push_cast
    have hx : (1 : ℚ) / 2 ≤ x * (10 : ℚ) ^ d := by
      have := mul_le_mul_of_nonneg_right h hp.le
      rw [div_mul_eq_mul_div, one_mul] at this
      calc (1 : ℚ) / 2 = (10 : ℚ) ^ d / (2 * (10 : ℚ) ^ d) := by field_simp
        _ ≤ x * (10 : ℚ) ^ d := this
    linarith
  have h1' : (0 : ℚ) < ((round (x * (10 : ℚ) ^ d) : ℤ) : ℚ) := by
    have : (1 : ℚ) ≤ ((round (x * (10 : ℚ) ^ d) : ℤ) : ℚ) := by exact_mod_cast h1
    linarith
  exact div_pos h1' hp

/-! ## FillSimulator (`src/apps/web/src/lib/execution/paperFill.ts`) -/

/-- The `side` parameter, `"buy" | "sell"`. -/
inductive Side
  | buy
  | sell
deriving DecidableEq, Repr

structure PaperFillInput where
  side : Side
  price : ℚ
  notional_usd : ℚ
  slippage_bps : ℚ
  fee_bps : ℚ
deriving DecidableEq, Repr

structure PaperFillResult where
  qty : ℚ
  fill_price : ℚ
  fee_usd : ℚ
  notional_usd : ℚ
deriving DecidableEq, Repr

/-- `paperFill` from `paperFill.ts`. -/
def paperFill (i : PaperFillInput) : PaperFillResult :=
  let slip := i.slippage_bps / 10000
  let feeRate := i.fee_bps / 10000
  let fill_price :=
    match i.side with
    | .buy => i.price * (1 + slip)
    | .sell => i.price * (1 - slip)
  let qty := i.notional_usd / fill_price
  let fee_usd := i.notional_usd * feeRate
  { qty := round8 qty
    fill_price := round4 fill_price
    fee_usd := round4 fee_usd
    notional_usd := round4 i.notional_usd }

/-! ## Rule scorer (`autoExecutePaper.ts`, `scoreOpportunity`) -/

/-- `STRATEGY_RISK_WEIGHT[opp.type] ?? 3`. -/
def strategyRiskWeight (t : String) : ℚ :=
  if t = "spot_perp_carry" then 0
  else if t = "xarb_spot" then 1
  else if t = "tri_arb" then 2
  else 3

/-- One raw entry of `details.steps` (a `tri_arb` leg before normalisation). -/
structure RawStep where
  symbol : String
  side : String
deriving DecidableEq, Repr

/-- The fields of the loosely-typed `details` JSON blob that the embedded
code reads.  A `none` / `""` / `[]` value models an absent key (for numeric
fields, `Number(undefined)` is `NaN`, which fails every `Number.isFinite`
check in the source). -/
structure OppDetails where
  break_even_hours : Option ℚ := none
  funding_daily_bps : Option ℚ := none
  basis_bps : Option ℚ := none
  steps : List RawStep := []
  buy_exchange : String := ""
  sell_exchange : String := ""
deriving DecidableEq, Repr

/-- A row of the `opportunities` table as selected by `autoExecutePaper`. -/
structure OpportunityRow where
  id : ℕ
  exchange : String
  symbol : String
  type : String
  net_edge_bps : Option ℚ
  confidence : Option ℚ
  details : OppDetails
deriving DecidableEq, Repr

/-- `scoreOpportunity` from `autoExecutePaper.ts`. -/
def scoreOpportunity (opp : OpportunityRow) : ℚ :=
  let risk := strategyRiskWeight opp.type
  let netEdge := opp.net_edge_bps.getD 0
  let confidence := opp.confidence.getD (1 / 2)
  let breakEvenPenalty :=
    match opp.details.break_even_hours with
    | some b => b / 24
    | none => 4
  risk + breakEvenPenalty - netEdge / 10 - confidence

/-! ## Claim theorems (C7, C9) -/

/-- C9: the rule score is monotonically non-increasing in `net_edge_bps`
and non-decreasing in finite `break_even_hours`, all else equal: the worse
opportunity (lower edge, or later break-even) never gets a lower (more
attractive) score. -/
theorem rule_score_monotone (base : OpportunityRow) (e₁ e₂ b₁ b₂ : ℚ)
    (he : e₁ ≤ e₂) (hb : b₁ ≤ b₂) :
    scoreOpportunity { base with net_edge_bps := some e₂ } ≤
      scoreOpportunity { base with net_edge_bps := some e₁ } ∧
    scoreOpportunity { base with details := { base.details with break_even_hours := some b₁ } } ≤
      scoreOpportunity { base with details := { base.details with break_even_hours := some b₂ } } := by
  constructor
  · have : e₁ / 10 ≤ e₂ / 10 := by linarith
    simp only [scoreOpportunity, Option.getD_some]
    rcases base.details.break_even_hours with _ | b <;> simp <;> linarith
  · have : b₁ / 24 ≤ b₂ / 24 := by linarith
    simp only [scoreOpportunity, Option.getD_some]
    linarith

def sampleCarryOpp : OpportunityRow :=
  { id := 1
    exchange := "bybit"
    symbol := "BTCUSDT"
    type := "spot_perp_carry"
    net_edge_bps := some 1
    confidence := some (7 / 10)
    details := {} }

theorem rule_score_monotone_witness :
    (1 : ℚ) ≤ 2 ∧ (3 : ℚ) ≤ 5 ∧
    (scoreOpportunity { sampleCarryOpp with net_edge_bps := some 2 } ≤
      scoreOpportunity { sampleCarryOpp with net_edge_bps := some 1 }) := by
  refine ⟨by norm_num, by norm_num, ?_⟩
  exact (rule_score_monotone sampleCarryOpp 1 2 3 5 (by norm_num) (by norm_num)).1

/-- Convenience constructor for `paperFill` inputs. -/
def fillInput (sd : Side) (p n s f : ℚ) : PaperFillInput :=
  { side := sd
    price := p
    notional_usd := n
    slippage_bps := s
    fee_bps := f }

/-- C7 fails as stated: for reference price `0.10002` (positive) and
slippage rate `2` bps (positive), the buy fill price after the `toFixed(4)`
rounding is `0.1000`, strictly below the reference price. -/
theorem paperFill_direction_counterexample :
    (paperFill (fillInput .buy (10002 / 100000) 100 2 4)).fill_price < 10002 / 100000 := by
  norm_num [paperFill, fillInput, round4, roundTo_eq_round, round_eq]

/-- C7 amended: for every reference price on the `1e-4` grid (the grid the
returned fill price is rounded to) and positive slippage rate, the fill
price is `≥` the reference for a buy and `≤` the reference for a sell; off
the grid the rounding can cross the reference by less than `5e-5`. -/
theorem paperFill_direction (k : ℤ) (n s f : ℚ) (hk : 0 < k) (hs : 0 < s) :
    (k : ℚ) / 10000 ≤
      (paperFill (fillInput .buy ((k : ℚ) / 10000) n s f)).fill_price ∧
    (paperFill (fillInput .sell ((k : ℚ) / 10000) n s f)).fill_price ≤ (k : ℚ) / 10000 := by
  have hp : (0 : ℚ) < (k : ℚ) / 10000 := by positivity
  have hgrid : round4 ((k : ℚ) / 10000) = (k : ℚ) / 10000 := by
    have h := roundTo_grid 4 k
    norm_num at h
    exact h
  constructor
  · show (k : ℚ) / 10000 ≤ round4 ((k : ℚ) / 10000 * (1 + s / 10000))
    calc (k : ℚ) / 10000 = round4 ((k : ℚ) / 10000) := hgrid.symm
      _ ≤ round4 ((k : ℚ) / 10000 * (1 + s / 10000)) := by
          apply roundTo_mono
          nlinarith
  · show round4 ((k : ℚ) / 10000 * (1 - s / 10000)) ≤ (k : ℚ) / 10000
    calc round4 ((k : ℚ) / 10000 * (1 - s / 10000)) ≤ round4 ((k : ℚ) / 10000) := by
          apply roundTo_mono
          nlinarith
      _ = (k : ℚ) / 10000 := hgrid

/-! ## CarryDetector (`spotPerpCarry.ts` and `detectCarry.ts`)

Timestamps are modelled in minutes on `ℚ`; the ISO-8601 strings compared
by the source (`gte("ts", …)`) form the same linear order. -/

/-- A `market_snapshots` row (`SnapshotInput` in `spotPerpCarry.ts`). -/
structure SnapshotInput where
  ts : ℚ
  exchange : String
  symbol : String
  spot_bid : Option ℚ
  spot_ask : Option ℚ
  perp_bid : Option ℚ
  perp_ask : Option ℚ
  funding_rate : Option ℚ
deriving DecidableEq, Repr

structure CarryConfig where
  fee_bps_total : ℚ
  slippage_bps_total : ℚ
  latency_buffer_bps : ℚ
  min_net_edge_bps : ℚ
deriving DecidableEq, Repr

def CARRY_CONFIG : CarryConfig :=
  { fee_bps_total := 6
    slippage_bps_total := 4
    latency_buffer_bps := 2
    min_net_edge_bps := 2 }

/-- The fields of `spotPerpCarry`'s returned opportunity that the detector
persists. -/
structure CarryOpportunityResult where
  type : String
  net_edge_bps : ℚ
  expected_daily_bps : ℚ
  expected_holding_bps : ℚ
  confidence : ℚ
  basis_bps : ℚ
deriving DecidableEq, Repr

/-- `spotPerpCarry` from `spotPerpCarry.ts`.  Returns `none` when a price
field is `null` or the net edge is below `min_net_edge_bps`. -/
def spotPerpCarry (snapshot : SnapshotInput) (holding_hours : ℚ) :
    Option CarryOpportunityResult :=
  match snapshot.spot_bid, snapshot.spot_ask, snapshot.perp_bid, snapshot.perp_ask,
      snapshot.funding_rate with
  | some spot_bid, some spot_ask, some perp_bid, some perp_ask, some funding_rate =>
    let basis_bps := ((perp_bid - spot_ask) / spot_ask) * 10000
    let funding_daily_bps := funding_rate * 3 * 10000
    let expected_holding_bps := funding_daily_bps * (holding_hours / 24)
    let gross_edge_bps := basis_bps + expected_holding_bps
    let costs_bps := CARRY_CONFIG.fee_bps_total + CARRY_CONFIG.slippage_bps_total +
      CARRY_CONFIG.latency_buffer_bps
    let net_edge_bps := gross_edge_bps - costs_bps
    let confidence : ℚ := if spot_ask > spot_bid ∧ perp_ask > perp_bid then 7 / 10 else 3 / 10
    if net_edge_bps < CARRY_CONFIG.min_net_edge_bps then none
    else some
      { type := "spot_perp_carry"
        net_edge_bps := round4 net_edge_bps
        expected_daily_bps := round4 funding_daily_bps
        expected_holding_bps := round4 expected_holding_bps
        confidence := confidence
        basis_bps := round4 basis_bps }
  | _, _, _, _, _ => none

/-- `ENTRY_COSTS_BPS + EXIT_COSTS_BPS` in `detectCarry.ts`. -/
def TOTAL_COSTS_BPS : ℚ := 8 + 8

/-- A row of the `opportunities` table as the detectors read and write it. -/
structure OppStoreRow where
  ts : ℚ
  exchange : String
  symbol : String
  type : String
  net_edge_bps : ℚ
deriving DecidableEq, Repr

/-- The detectors' dedupe query: an opportunity with the same
`(exchange, symbol, type)` and `ts ≥ since` exists. -/
def hasRecentOpportunity (store : List OppStoreRow) (exchange symbol ty : String)
    (since : ℚ) : Bool :=
  store.any fun r =>
    decide (r.exchange = exchange ∧ r.symbol = symbol ∧ r.type = ty ∧ since ≤ r.ts)

/-- `safeMid` from `detectCarry.ts`. -/
def safeMid : Option ℚ → Option ℚ → Option ℚ
  | some bid, some ask => some ((bid + ask) / 2)
  | _, _ => none

/-- Outcome of evaluating one symbol in `detectCarry` (the fields of
`EvaluatedRow` the claims mention, plus the resulting opportunities
store). -/
structure CarryEval where
  decision : String
  reason : Option String
  entry_basis_bps : ℚ
  funding_daily_bps : ℚ
  net_edge_bps : ℚ
  break_even_hours : Option ℚ
  store : List OppStoreRow
deriving DecidableEq, Repr

/-- The body of `detectCarry`'s per-symbol loop (`detectCarry.ts`,
the branch where a valid snapshot exists).  `break_even_hours` is `none`
exactly when `funding_daily_bps ≤ 0`, so the source's
`break_even_hours !== null &&` guards are subsumed by the positive-funding
branch. -/
def detectCarryStep (store : List OppStoreRow) (now holding_hours : ℚ)
    (snapshot : SnapshotInput) : CarryEval :=
  let idempotentSince := now - 5
  let spot_mid := safeMid snapshot.spot_bid snapshot.spot_ask
  let perp_mid := safeMid snapshot.perp_bid snapshot.perp_ask
  let entry_basis_bps :=
    match spot_mid, perp_mid with
    | some sm, some pm => if sm ≠ 0 ∧ pm ≠ 0 then ((pm - sm) / sm) * 10000 else 0
    | _, _ => 0
  let funding_daily_bps :=
    match snapshot.funding_rate with
    | some f => if f ≠ 0 then f * 3 * 10000 else 0
    | none => 0
  let expected_holding_bps := funding_daily_bps * (holding_hours / 24)
  let gross_edge_bps := entry_basis_bps + expected_holding_bps
  let net_edge_bps := gross_edge_bps - TOTAL_COSTS_BPS
  if funding_daily_bps ≤ 0 then
    { decision := "skipped", reason := some "non-positive funding"
      entry_basis_bps := entry_basis_bps, funding_daily_bps := funding_daily_bps
      net_edge_bps := net_edge_bps, break_even_hours := none, store := store }
  else
    let break_even_hours :=
      max 0 (round2 ((24 * (TOTAL_COSTS_BPS - entry_basis_bps)) / funding_daily_bps))
    if break_even_hours ≤ 48 ∧ CARRY_CONFIG.min_net_edge_bps ≤ net_edge_bps then
      match spotPerpCarry snapshot holding_hours with
      | none =>
        { decision := "skipped", reason := some "missing data"
          entry_basis_bps := entry_basis_bps, funding_daily_bps := funding_daily_bps
          net_edge_bps := net_edge_bps, break_even_hours := some break_even_hours
          store := store }
      | some result =>
        if hasRecentOpportunity store snapshot.exchange snapshot.symbol result.type
            idempotentSince then
          { decision := "skipped", reason := some "recent opportunity exists"
            entry_basis_bps := entry_basis_bps, funding_daily_bps := funding_daily_bps
            net_edge_bps := net_edge_bps, break_even_hours := some break_even_hours
            store := store }
        else
          { decision := "inserted", reason := none
            entry_basis_bps := entry_basis_bps, funding_daily_bps := funding_daily_bps
            net_edge_bps := net_edge_bps, break_even_hours := some break_even_hours
            store := store ++
              [{ ts := snapshot.ts, exchange := snapshot.exchange
                 symbol := snapshot.symbol, type := result.type
                 net_edge_bps := result.net_edge_bps }] }
    else if break_even_hours ≤ 72 then
      { decision := "watchlist", reason := none
        entry_basis_bps := entry_basis_bps, funding_daily_bps := funding_daily_bps
        net_edge_bps := net_edge_bps, break_even_hours := some break_even_hours
        store := store }
    else
      { decision := "skipped", reason := some "below threshold"
        entry_basis_bps := entry_basis_bps, funding_daily_bps := funding_daily_bps
        net_edge_bps := net_edge_bps, break_even_hours := some break_even_hours
        store := store }

/-- The snapshot validity filter of `detectCarry` (all prices present,
positive, and uncrossed on both legs). -/
def validSnapshot (s : SnapshotInput) : Bool :=
  match s.spot_bid, s.spot_ask, s.perp_bid, s.perp_ask with
  | some sb, some sa, some pb, some pa =>
    decide (0 < sb ∧ 0 < sa ∧ 0 < pb ∧ 0 < pa ∧ sb < sa ∧ pb < pa)
  | _, _, _, _ => false

/-- `detectCarry` restricted to one symbol: pick the freshest valid
snapshot inside the 15-minute lookback window (the snapshot list stands
for the rows of the ts-descending query) and evaluate it. -/
def detectCarrySymbol (store : List OppStoreRow) (now holding_hours : ℚ)
    (snapshots : List SnapshotInput) (symbol : String) : CarryEval :=
  let inWindow := snapshots.filter fun s => decide (s.symbol = symbol ∧ now - 15 ≤ s.ts)
  match (inWindow.filter fun s => validSnapshot s).head? with
  | none =>
    { decision := "skipped", reason := some "no valid snapshot"
      entry_basis_bps := 0, funding_daily_bps := 0, net_edge_bps := 0
      break_even_hours := none, store := store }
  | some snap => detectCarryStep store now holding_hours snap

/-- The snapshot of spec example 1:
`spot_bid=100, spot_ask=100.1, perp_bid=100.5, perp_ask=100.6,
funding_rate=0.0004`. -/
def carryExampleSnapshot : SnapshotInput :=
  { ts := 0
    exchange := "binance"
    symbol := "BTCUSDT"
    spot_bid := some 100
    spot_ask := some (1001 / 10)
    perp_bid := some (201 / 2)
    perp_ask := some (503 / 5)
    funding_rate := some (1 / 2500) }

/-- C3 fails as stated.  On the example snapshot the mid-price basis
formula `(perp_mid − spot_mid)/spot_mid × 10000` gives `100000/2001 ≈
49.98`, not `≈ 40`, and the inserted opportunity's `net_edge_bps` is
`39.96` (computed by `spotPerpCarry` from the `(perp_bid −
spot_ask)/spot_ask` basis with 12 bps of costs), not `≈ 36`. -/
theorem detectCarry_example_counterexample :
    (detectCarrySymbol [] 0 24 [carryExampleSnapshot] "BTCUSDT").decision = "inserted" ∧
    (detectCarrySymbol [] 0 24 [carryExampleSnapshot] "BTCUSDT").entry_basis_bps =
      100000 / 2001 ∧
    ¬ |(100000 : ℚ) / 2001 - 40| ≤ 2 ∧
    ((detectCarrySymbol [] 0 24 [carryExampleSnapshot] "BTCUSDT").store.map
      (fun r => r.net_edge_bps)) = [999 / 25] ∧
    ¬ |(999 : ℚ) / 25 - 36| ≤ 1 := by
  refine ⟨?_, ?_, by rw [abs_le]; norm_num, ?_, by rw [abs_le]; norm_num⟩ <;>
    norm_num [detectCarrySymbol, detectCarryStep, spotPerpCarry, safeMid, validSnapshot,
      hasRecentOpportunity, carryExampleSnapshot, CARRY_CONFIG, TOTAL_COSTS_BPS,
      round2, round4, roundTo_eq_round, round_eq, List.filter]

/-- C3 amended: on the example snapshot `detectCarry` computes
`funding_daily_bps = 12`, a mid-price entry basis of `100000/2001 ≈ 49.98`,
and inserts an opportunity whose `net_edge_bps` is `39.96 ≈ 40` — the
value computed by `spotPerpCarry` as `basis + funding_daily_bps ×
holding_hours/24 − 12` with `basis = (perp_bid − spot_ask)/spot_ask ×
10000`. -/
theorem detectCarry_example_inserts :
    (detectCarrySymbol [] 0 24 [carryExampleSnapshot] "BTCUSDT").decision = "inserted" ∧
    (detectCarrySymbol [] 0 24 [carryExampleSnapshot] "BTCUSDT").funding_daily_bps = 12 ∧
    (detectCarrySymbol [] 0 24 [carryExampleSnapshot] "BTCUSDT").entry_basis_bps =
      100000 / 2001 ∧
    (detectCarrySymbol [] 0 24 [carryExampleSnapshot] "BTCUSDT").store =
      [{ ts := 0, exchange := "binance", symbol := "BTCUSDT"
         type := "spot_perp_carry", net_edge_bps := 999 / 25 }] ∧
    (spotPerpCarry carryExampleSnapshot 24).map (fun r => r.basis_bps) = some (999 / 25) ∧
    |(999 : ℚ) / 25 - 40| < 1 / 10 := by
  refine ⟨?_, ?_, ?_, ?_, ?_, by rw [abs_sub_lt_iff]; norm_num⟩ <;>
    norm_num [detectCarrySymbol, detectCarryStep, spotPerpCarry, safeMid, validSnapshot,
      hasRecentOpportunity, carryExampleSnapshot, CARRY_CONFIG, TOTAL_COSTS_BPS,
      round2, round4, roundTo_eq_round, round_eq, List.filter]

/-- The example snapshot, but written 10 minutes before "now" — still
inside the 15-minute snapshot lookback, but older than the 5-minute
idempotency window. -/
def staleCarrySnapshot : SnapshotInput :=
  { carryExampleSnapshot with ts := -10 }

/-- C4 (code bug): the carry detector inserts opportunities with
`ts := snapshot.ts` while its dedupe query only looks back 5 minutes from
"now", so two runs one minute apart over the same 10-minute-old snapshot
both insert — two opportunities with the same `(exchange, symbol, type)`
created within the idempotency window. -/
theorem detectCarry_idempotency_violation :
    (detectCarrySymbol [] 0 24 [staleCarrySnapshot] "BTCUSDT").decision = "inserted" ∧
    (detectCarrySymbol
        (detectCarrySymbol [] 0 24 [staleCarrySnapshot] "BTCUSDT").store
        1 24 [staleCarrySnapshot] "BTCUSDT").decision = "inserted" ∧
    ((detectCarrySymbol
        (detectCarrySymbol [] 0 24 [staleCarrySnapshot] "BTCUSDT").store
        1 24 [staleCarrySnapshot] "BTCUSDT").store.map
      (fun r => (r.exchange, r.symbol, r.type))) =
      [("binance", "BTCUSDT", "spot_perp_carry"),
       ("binance", "BTCUSDT", "spot_perp_carry")] := by
  refine ⟨?_, ?_, ?_⟩ <;>
    norm_num [detectCarrySymbol, detectCarryStep, spotPerpCarry, safeMid, validSnapshot,
      hasRecentOpportunity, staleCarrySnapshot, carryExampleSnapshot, CARRY_CONFIG,
      TOTAL_COSTS_BPS, round2, round4, roundTo_eq_round, round_eq, List.filter]

/-! ## CapitalLedger (`paper_accounts`)

Reservation: `autoExecutePaper.ts` skips a candidate when
`notional_usd > available` (with `available = Math.max(0, balance -
reserved)` read at tick start) and otherwise writes
`reserved_usd := Number((reserved + notional).toFixed(2))`; at most one
position is opened per tick (`MAX_EXECUTE_PER_TICK = 1`).
Release: `autoClosePaper.ts` writes
`reserved_usd := Math.max(0, Number((reserved - notional).toFixed(2)))`. -/

structure Ledger where
  balance_usd : ℚ
  reserved_usd : ℚ
deriving DecidableEq, Repr

/-- `Math.max(0, balance - reserved)`. -/
def availableOf (l : Ledger) : ℚ := max 0 (l.balance_usd - l.reserved_usd)

inductive LedgerOp
  | reserve (notional : ℚ)
  | release (notional : ℚ)
deriving DecidableEq, Repr

/-- One reserve (open) or release (close) against the single account
row. -/
def applyLedgerOp (l : Ledger) : LedgerOp → Ledger
  | .reserve n =>
    if availableOf l < n then l
    else { l with reserved_usd := round2 (l.reserved_usd + n) }
  | .release n => { l with reserved_usd := max 0 (round2 (l.reserved_usd - n)) }

/-- A dollar amount with at most two decimal places (every amount the
jobs ever write, and every notional `deriveNotional` produces from a
cent-aligned account configuration). -/
def CentAligned (x : ℚ) : Prop := ∃ n : ℤ, x = (n : ℚ) / 100

theorem round2_centAligned {x : ℚ} (h : CentAligned x) : round2 x = x := by
  obtain ⟨n, rfl⟩ := h
  have h2 := roundTo_grid 2 n
  norm_num at h2
  exact h2

theorem centAligned_add {x y : ℚ} (hx : CentAligned x) (hy : CentAligned y) :
    CentAligned (x + y) := by
  obtain ⟨n, rfl⟩ := hx
  obtain ⟨m, rfl⟩ := hy
  exact ⟨n + m, by push_cast; ring⟩

theorem centAligned_sub {x y : ℚ} (hx : CentAligned x) (hy : CentAligned y) :
    CentAligned (x - y) := by
  obtain ⟨n, rfl⟩ := hx
  obtain ⟨m, rfl⟩ := hy
  exact ⟨n - m, by push_cast; ring⟩

theorem centAligned_zero : CentAligned 0 := ⟨0, by norm_num⟩

theorem centAligned_max {x y : ℚ} (hx : CentAligned x) (hy : CentAligned y) :
    CentAligned (max x y) := by
  rcases max_choice x y with h | h <;> rw [h] <;> assumption

/-- The ledger invariant together with the cent-alignment needed to see
through the `toFixed(2)` rounding. -/
def LedgerGood (l : Ledger) : Prop :=
  0 ≤ l.reserved_usd ∧ l.reserved_usd ≤ l.balance_usd ∧
  CentAligned l.reserved_usd ∧ CentAligned l.balance_usd

/-- Operations carry a nonnegative cent-aligned notional (`deriveNotional`
clamps `{100, 300, 500}` into the account's `[min, max]` bounds). -/
def LedgerOpGood : LedgerOp → Prop
  | .reserve n => 0 ≤ n ∧ CentAligned n
  | .release n => 0 ≤ n ∧ CentAligned n

theorem applyLedgerOp_preserves {l : Ledger} {op : LedgerOp}
    (hl : LedgerGood l) (hop : LedgerOpGood op) :
    LedgerGood (applyLedgerOp l op) ∧
      (applyLedgerOp l op).balance_usd = l.balance_usd := by
  obtain ⟨hr0, hrb, hcr, hcb⟩ := hl
  cases op with
  | reserve n =>
    obtain ⟨hn0, hcn⟩ := hop
    by_cases h : availableOf l < n
    · simp only [applyLedgerOp, if_pos h]
      exact ⟨⟨hr0, hrb, hcr, hcb⟩, trivial⟩
    · push_neg at h
      have havail : availableOf l = l.balance_usd - l.reserved_usd := by
        unfold availableOf
        rw [max_eq_right (by linarith)]
      have hsum : round2 (l.reserved_usd + n) = l.reserved_usd + n :=
        round2_centAligned (centAligned_add hcr hcn)
      simp only [applyLedgerOp, if_neg (not_lt.mpr h), hsum]
      rw [havail] at h
      refine ⟨⟨?_, ?_, ?_, ?_⟩, trivial⟩
      · show (0 : ℚ) ≤ l.reserved_usd + n
        linarith
      · show l.reserved_usd + n ≤ l.balance_usd
        linarith
      · show CentAligned (l.reserved_usd + n)
        exact centAligned_add hcr hcn
      · show CentAligned l.balance_usd
        exact hcb
  | release n =>
    obtain ⟨hn0, hcn⟩ := hop
    have hsub : round2 (l.reserved_usd - n) = l.reserved_usd - n :=
      round2_centAligned (centAligned_sub hcr hcn)
    simp only [applyLedgerOp, hsub]
    refine ⟨⟨?_, ?_, ?_, ?_⟩, trivial⟩
    · show (0 : ℚ) ≤ max 0 (l.reserved_usd - n)
      exact le_max_left _ _
    · show max 0 (l.reserved_usd - n) ≤ l.balance_usd
      rw [max_le_iff]
      constructor <;> linarith
    · show CentAligned (max 0 (l.reserved_usd - n))
      exact centAligned_max centAligned_zero (centAligned_sub hcr hcn)
    · show CentAligned l.balance_usd
      exact hcb

/-- C1: along any sequence of reserve/release operations starting from a
well-formed account, `reserved_usd` stays in `[0, balance_usd]` and the
computed available capital equals `balance_usd - reserved_usd` at every
intermediate ledger state. -/
theorem ledger_invariant (l₀ : Ledger) (ops : List LedgerOp)
    (h₀ : LedgerGood l₀) (hops : ∀ op ∈ ops, LedgerOpGood op) :
    ∀ l ∈ ops.scanl applyLedgerOp l₀,
      0 ≤ l.reserved_usd ∧ l.reserved_usd ≤ l.balance_usd ∧
      availableOf l = l.balance_usd - l.reserved_usd := by
  induction ops generalizing l₀ with
  | nil =>
    intro l hl
    simp only [List.scanl, List.mem_singleton] at hl
    subst hl
    obtain ⟨hr0, hrb, _, _⟩ := h₀
    refine ⟨hr0, hrb, ?_⟩
    unfold availableOf
    rw [max_eq_right (by linarith)]
  | cons op ops ih =>
    intro l hl
    simp only [List.scanl, List.mem_cons] at hl
    rcases hl with rfl | hl
    · obtain ⟨hr0, hrb, _, _⟩ := h₀
      refine ⟨hr0, hrb, ?_⟩
      unfold availableOf
      rw [max_eq_right (by linarith)]
    · have hstep := applyLedgerOp_preserves h₀ (hops op (List.mem_cons_self op ops))
      exact ih (applyLedgerOp l₀ op) hstep.1
        (fun o ho => hops o (List.mem_cons_of_mem op ho)) l hl

/-- Witness for C1 at spec example 4: `balance = 10000, reserved = 0`;
reserve 300 then release 300. -/
theorem ledger_invariant_witness :
    LedgerGood { balance_usd := 10000, reserved_usd := 0 } ∧
    (∀ op ∈ [LedgerOp.reserve 300, LedgerOp.release 300], LedgerOpGood op) ∧
    ∀ l ∈ ([LedgerOp.reserve 300, LedgerOp.release 300].scanl applyLedgerOp
        { balance_usd := 10000, reserved_usd := 0 }),
      0 ≤ l.reserved_usd ∧ l.reserved_usd ≤ l.balance_usd ∧
      availableOf l = l.balance_usd - l.reserved_usd := by
  have hgood : LedgerGood { balance_usd := 10000, reserved_usd := 0 } :=
    ⟨by norm_num, by norm_num, ⟨0, by norm_num⟩, ⟨1000000, by norm_num⟩⟩
  have hops : ∀ op ∈ [LedgerOp.reserve 300, LedgerOp.release 300], LedgerOpGood op := by
    intro op hop
    simp only [List.mem_cons, List.not_mem_nil, or_false] at hop
    rcases hop with rfl | rfl
    · exact ⟨by norm_num, ⟨30000, by norm_num⟩⟩
    · exact ⟨by norm_num, ⟨30000, by norm_num⟩⟩
  exact ⟨hgood, hops, ledger_invariant _ _ hgood hops⟩

/-! ## ExecutionEngine (`autoExecutePaper.ts`) -/

def DEFAULT_NOTIONAL : ℚ := 100
def SLIPPAGE_BPS : ℚ := 2
def FEE_BPS : ℚ := 4
def MAX_OPEN_POSITIONS : ℕ := 10
def MAX_OPEN_PER_SYMBOL : ℕ := 2
def MAX_NEW_PER_HOUR : ℕ := 3
def MAX_CANDIDATES : ℕ := 10
def MAX_EXECUTE_PER_TICK : ℕ := 1
def MAX_LLM_CALLS_PER_TICK : ℕ := 3
def MAX_LLM_RERANK : ℕ := 3
def MAX_LLM_CALLS_PER_DAY : ℕ := 500

def clampNotional (value mn mx : ℚ) : ℚ := min (max value mn) mx

structure DerivedNotional where
  notional : ℚ
  reason : String
deriving DecidableEq, Repr

/-- `deriveNotional` from `autoExecutePaper.ts`, with the source's
two-stage `reason === "default"` flow flattened into one decision tree:
a finite `break_even_hours` tier wins, otherwise the `net_edge_bps`
tier applies, otherwise the default notional of 100. -/
def deriveNotional (net_edge_bps : Option ℚ) (details : OppDetails)
    (minNotional maxNotional : ℚ) : DerivedNotional :=
  let netEdge := net_edge_bps.getD 0
  let tier : ℚ × String :=
    match details.break_even_hours with
    | some breakEven =>
      if breakEven ≤ 24 then (500, "break_even_fast")
      else if breakEven ≤ 48 then (300, "break_even_ok")
      else if 20 ≤ netEdge then (500, "net_edge_high")
      else if 12 ≤ netEdge then (300, "net_edge_mid")
      else (DEFAULT_NOTIONAL, "default")
    | none =>
      if 20 ≤ netEdge then (500, "net_edge_high")
      else if 12 ≤ netEdge then (300, "net_edge_mid")
      else (DEFAULT_NOTIONAL, "default")
  { notional := clampNotional tier.1 minNotional maxNotional, reason := tier.2 }

/-! Scoring pipeline (`opportunityScoring.ts` and the candidate-selection
block of `autoExecutePaper`). -/

inductive Variant
  | A
  | B
deriving DecidableEq, Repr

/-- `variantForOpportunity`: `(id * 2654435761) >>> 0` is exact for the
ids the `bigserial` column produces in practice (below `2^21`), so the
float multiply is modelled by exact arithmetic mod `2^32`. -/
def variantForOpportunity (opportunityId : ℕ) : Variant :=
  if opportunityId * 2654435761 % 2 ^ 32 % 2 = 0 then .A else .B

/-- The `vector.values` of `buildFeatureBundle` (fixed order; absent or
non-finite numeric details default to 0). -/
def buildFeatureValues (ty : String) (net_edge confidence : Option ℚ)
    (details : OppDetails) : List ℚ :=
  [1, net_edge.getD 0, confidence.getD (1 / 2),
   details.break_even_hours.getD 0,
   details.funding_daily_bps.getD 0,
   details.basis_bps.getD 0,
   if ty = "spot_perp_carry" then 1 else 0,
   if ty = "xarb_spot" then 1 else 0,
   if ty = "tri_arb" then 1 else 0]

/-- `predictScore`: dot product of the learned weights with the feature
values; `none` when no model was trained. -/
def predictScore (weights : Option (List ℚ)) (values : List ℚ) : Option ℚ :=
  match weights with
  | none => none
  | some w => some ((w.zip values).map (fun p => p.1 * p.2)).sum

/-- A candidate after scoring (the `ScoredOpportunity` record of
`autoExecutePaper.ts`). -/
structure ScoredOpportunity where
  opp : OpportunityRow
  score : ℚ
  variant : Variant
  aiScore : Option ℚ
  effectiveScore : ℚ
deriving DecidableEq, Repr

def mkScored (weights : Option (List ℚ)) (opp : OpportunityRow) : ScoredOpportunity :=
  let score := scoreOpportunity opp
  let variant := variantForOpportunity opp.id
  let aiScore := predictScore weights
    (buildFeatureValues opp.type opp.net_edge_bps opp.confidence opp.details)
  { opp := opp
    score := score
    variant := variant
    aiScore := aiScore
    effectiveScore := if variant = .B then aiScore.getD score else score }

/-- A row of the open-positions query.  The query is
`.select("id")`, so the row object carries no `symbol` property. -/
structure OpenPositionIdRow where
  id : ℕ
deriving DecidableEq, Repr

/-- `(pos as { symbol?: string | null }).symbol ?? ""` read on a row of
shape `{ id }`: the property is `undefined`, so the result is always
`""`. -/
def openPositionRowSymbol (_ : OpenPositionIdRow) : String := ""

/-- `openBySymbol` as built in `autoExecutePaper.ts`: count the queried
open-position rows by symbol, skipping empty symbols.  Because the query
selects only `id`, every row reads as `""` and is skipped. -/
def buildOpenBySymbol (rows : List OpenPositionIdRow) (sym : String) : ℕ :=
  (rows.filter fun r =>
    decide (openPositionRowSymbol r ≠ "" ∧ openPositionRowSymbol r = sym)).length

def scoreSortTake (weights : Option (List ℚ)) (opps : List OpportunityRow) :
    List ScoredOpportunity :=
  ((opps.map (mkScored weights)).mergeSort
    (fun a b => decide (a.effectiveScore ≤ b.effectiveScore))).take MAX_CANDIDATES

/-- The candidate-selection block of `autoExecutePaper`: filter by
nonempty symbol and the per-symbol open cap, score, sort ascending by
effective score and keep `MAX_CANDIDATES`; if that leaves nothing,
rebuild from all opportunities without the filter. -/
def selectCandidates (weights : Option (List ℚ)) (openBySymbol : String → ℕ)
    (opps : List OpportunityRow) : List ScoredOpportunity :=
  let primary := scoreSortTake weights (opps.filter fun opp =>
    decide (opp.symbol ≠ "" ∧ openBySymbol opp.symbol < MAX_OPEN_PER_SYMBOL))
  if primary.isEmpty then scoreSortTake weights opps else primary

/-- The observable outcome of one `scoreWithOpenAI` call
(`openaiRanker.ts`): the promise either rejects (`throws` — a
network-level `fetch` failure or a failing `response.json()`; the
8-second timer's `AbortController` signal is never passed to `fetch`, so
a timeout alone never rejects) or resolves with `score : Option ℚ`
(`none` for a missing API key, a non-OK HTTP status, or content with no
parseable number). -/
inductive LlmOutcome
  | throws
  | returns (score : Option ℚ)
deriving DecidableEq, Repr

/-- The re-ranker loop of `autoExecutePaper` (lines 514–541).  A candidate
is consulted when it is variant B, sits among the first `MAX_LLM_RERANK`
candidates (`rerankCandidates.includes`, i.e. positional), daily budget
remains and the per-tick count is under `MAX_LLM_CALLS_PER_TICK`.  Each
output is paired with its "was consulted" flag; a rejected promise
propagates as `.error`. -/
def rerankGo (llm : ℕ → LlmOutcome) :
    List ScoredOpportunity → ℕ → ℕ → ℕ →
      Except Unit (List (ScoredOpportunity × Bool))
  | [], _, _, _ => .ok []
  | opp :: rest, idx, used, remaining =>
    if opp.variant = .B ∧ idx < MAX_LLM_RERANK ∧ 0 < remaining ∧
        used < MAX_LLM_CALLS_PER_TICK then
      match llm opp.opp.id with
      | .throws => .error ()
      | .returns score? =>
        let opp' :=
          match score? with
          | some s => { opp with aiScore := some s, effectiveScore := s }
          | none => opp
        (rerankGo llm rest (idx + 1) (used + 1) (remaining - 1)).map
          fun out => (opp', true) :: out
    else
      (rerankGo llm rest (idx + 1) used remaining).map fun out => (opp, false) :: out

def rerankLoop (llm : ℕ → LlmOutcome) (scored : List ScoredOpportunity)
    (remaining0 : ℕ) : Except Unit (List (ScoredOpportunity × Bool)) :=
  rerankGo llm scored 0 0 remaining0

/-- The `ai_usage_daily` upsert after the loop: written only when at
least one call was made, with `requests + llmCallsUsed`. -/
def llmUsageAfter (usageRequests used : ℕ) : ℕ :=
  if 0 < used then usageRequests + used else usageRequests

/-! Per-candidate execution (`autoExecutePaper` lines 566–1067). -/

structure PaperAccount where
  balance_usd : ℚ
  reserved_usd : ℚ
  min_notional_usd : ℚ
  max_notional_usd : ℚ
deriving DecidableEq, Repr

/-- The freshest `market_snapshots` row for a carry candidate, as far as
the execution branch reads it. -/
structure CarrySnapshotRow where
  id : ℕ
  spot_ask : Option ℚ
  perp_bid : Option ℚ
deriving DecidableEq, Repr

/-- A raw ticker as parsed by `fetchSpotTicker` /
`fetchOkxTrianglePrices` before validation (`toNumber` yields `none` for
unparseable fields). -/
structure RawTicker where
  bid : Option ℚ
  ask : Option ℚ
deriving DecidableEq, Repr

/-- The `!bid || !ask || ask <= bid` validation each fetch performs;
failure throws. -/
def validateTicker (t : RawTicker) : Except Unit (ℚ × ℚ) :=
  match t.bid, t.ask with
  | some b, some a => if b = 0 ∨ a = 0 ∨ a ≤ b then .error () else .ok (b, a)
  | _, _ => .error ()

/-- Everything the execution loop reads from outside for one candidate:
the open-position-for-this-opportunity query, the carry snapshot query,
and the HTTP tickers (per triangle leg index for `tri_arb`). -/
structure CandEnv where
  existingOpenForOpp : Bool
  carrySnapshot : Option CarrySnapshotRow
  xarbBuyTicker : Except Unit RawTicker
  xarbSellTicker : Except Unit RawTicker
  tri : ℕ → Except Unit RawTicker

/-- The created `positions` row, restricted to the fields the claims are
about (`notional_usd` is `meta.notional_usd`). -/
structure PositionRec where
  symbol : String
  status : String
  entry_spot_price : Option ℚ
  entry_perp_price : Option ℚ
  spot_qty : ℚ
  perp_qty : ℚ
  realized_pnl_usd : Option ℚ
  notional_usd : ℚ
deriving DecidableEq, Repr

inductive ExecOutcome
  | skippedWith (reasons : List String)
  | created (pos : PositionRec) (reservedAfter availableAfter : ℚ)
deriving DecidableEq, Repr

/-- The `spot_perp_carry` execution branch. -/
def execCarryBranch (opp : OpportunityRow) (notional reserved available : ℚ)
    (snapshot? : Option CarrySnapshotRow) : ExecOutcome :=
  match snapshot? with
  | none => .skippedWith ["missing_snapshot_prices"]
  | some snap =>
    match snap.spot_ask, snap.perp_bid with
    | some spot_ask, some perp_bid =>
      let spotFill := paperFill (fillInput .buy spot_ask notional SLIPPAGE_BPS FEE_BPS)
      let perpFill := paperFill (fillInput .sell perp_bid notional SLIPPAGE_BPS FEE_BPS)
      .created
        { symbol := opp.symbol
          status := "open"
          entry_spot_price := some spotFill.fill_price
          entry_perp_price := some perpFill.fill_price
          spot_qty := spotFill.qty
          perp_qty := -perpFill.qty
          realized_pnl_usd := none
          notional_usd := notional }
        (round2 (reserved + notional)) (round2 (available - notional))
    | _, _ => .skippedWith ["missing_snapshot_prices"]

/-- `CANONICAL_MAP` from `autoExecutePaper.ts`. -/
structure CanonicalMapping where
  bybit : String
  okx : String
  kraken : Option String
deriving DecidableEq, Repr

def CANONICAL_MAP (symbol : String) : Option CanonicalMapping :=
  if symbol = "BTCUSD" then some ⟨"BTCUSDT", "BTCUSDT", some "BTCUSD"⟩
  else if symbol = "ETHUSD" then some ⟨"ETHUSDT", "ETHUSDT", some "ETHUSD"⟩
  else if symbol = "SOLUSD" then some ⟨"SOLUSDT", "SOLUSDT", none⟩
  else if symbol = "XRPUSD" then some ⟨"XRPUSDT", "XRPUSDT", none⟩
  else if symbol = "BNBUSD" then some ⟨"BNBUSDT", "BNBUSDT", none⟩
  else if symbol = "ADAUSD" then some ⟨"ADAUSDT", "ADAUSDT", none⟩
  else if symbol = "DOGEUSD" then some ⟨"DOGEUSDT", "DOGEUSDT", none⟩
  else if symbol = "AVAXUSD" then some ⟨"AVAXUSDT", "AVAXUSDT", none⟩
  else if symbol = "LINKUSD" then some ⟨"LINKUSDT", "LINKUSDT", none⟩
  else if symbol = "LTCUSD" then some ⟨"LTCUSDT", "LTCUSDT", none⟩
  else if symbol = "DOTUSD" then some ⟨"DOTUSDT", "DOTUSDT", none⟩
  else if symbol = "BCHUSD" then some ⟨"BCHUSDT", "BCHUSDT", none⟩
  else if symbol = "TRXUSD" then some ⟨"TRXUSDT", "TRXUSDT", none⟩
  else none

/-- `buyExchange === "kraken" ? mapping.kraken : buyExchange === "okx" ?
mapping.okx : mapping.bybit`. -/
def resolveLegSymbol (exchangeName : String) (m : CanonicalMapping) : Option String :=
  if exchangeName = "kraken" then m.kraken
  else if exchangeName = "okx" then some m.okx
  else some m.bybit

/-- The `xarb_spot` execution branch. -/
def execXarbBranch (opp : OpportunityRow) (notional reserved available : ℚ)
    (buyTicker sellTicker : Except Unit RawTicker) : ExecOutcome :=
  match CANONICAL_MAP opp.symbol with
  | none => .skippedWith ["symbol_not_supported"]
  | some mapping =>
    let buyExchange := opp.details.buy_exchange
    let sellExchange := opp.details.sell_exchange
    let buySymbol := resolveLegSymbol buyExchange mapping
    let sellSymbol := resolveLegSymbol sellExchange mapping
    if buyExchange = "" ∨ sellExchange = "" ∨ buySymbol.getD "" = "" ∨
        sellSymbol.getD "" = "" then
      .skippedWith ["missing_exchange_mapping"]
    else
      let quotes : Except Unit ((ℚ × ℚ) × (ℚ × ℚ)) := do
        let bt ← buyTicker
        let st ← sellTicker
        let bq ← validateTicker bt
        let sq ← validateTicker st
        pure (bq, sq)
      match quotes with
      | .error _ => .skippedWith ["live_price_error"]
      | .ok ((_, buyAsk), (sellBid, _)) =>
        let buyFill := paperFill (fillInput .buy buyAsk notional SLIPPAGE_BPS FEE_BPS)
        let sellFill := paperFill (fillInput .sell sellBid notional SLIPPAGE_BPS FEE_BPS)
        .created
          { symbol := opp.symbol
            status := "open"
            entry_spot_price := some buyFill.fill_price
            entry_perp_price := some sellFill.fill_price
            spot_qty := buyFill.qty
            perp_qty := -sellFill.qty
            realized_pnl_usd := none
            notional_usd := notional }
          (round2 (reserved + notional)) (round2 (available - notional))

/-! `tri_arb` execution. -/

structure TriStep where
  symbol : String
  side : Side
deriving DecidableEq, Repr

structure TriPrice where
  symbol : String
  side : Side
  bid : ℚ
  ask : ℚ
deriving DecidableEq, Repr

/-- Normalisation of `details.steps`: `side === "sell" ? "sell" : "buy"`,
keep steps with a nonempty symbol (after normalisation the side check of
the source filter is always true). -/
def parseSteps (raw : List RawStep) : List TriStep :=
  (raw.map fun s =>
    { symbol := s.symbol
      side := if s.side = "sell" then Side.sell else Side.buy }).filter
    fun s => decide (s.symbol ≠ "")

/-- `fetchOkxTrianglePrices`: fetch and validate one ticker per step, in
order (`i` is the index of the first remaining step); any failure throws
for the whole candidate. -/
def fetchTriangleFrom (tri : ℕ → Except Unit RawTicker) :
    List TriStep → ℕ → Except Unit (List TriPrice)
  | [], _ => .ok []
  | step :: rest, i => do
    let t ← tri i
    let bq ← validateTicker t
    let others ← fetchTriangleFrom tri rest (i + 1)
    pure ({ symbol := step.symbol, side := step.side, bid := bq.1, ask := bq.2 } :: others)

def fetchOkxTrianglePrices (tri : ℕ → Except Unit RawTicker)
    (steps : List TriStep) : Except Unit (List TriPrice) :=
  fetchTriangleFrom tri steps 0

/-- `applyFee` from `autoExecutePaper.ts`. -/
def applyFee (amount feeBps : ℚ) : ℚ := amount * (1 - feeBps / 10000)

/-- `applySlippage` from `autoExecutePaper.ts`. -/
def applySlippage (price : ℚ) (side : Side) (slippageBps : ℚ) : ℚ :=
  match side with
  | .buy => price * (1 + slippageBps / 10000)
  | .sell => price * (1 - slippageBps / 10000)

/-- JS `String.prototype.split("-")`, written structurally on the
character list so that it evaluates. -/
def splitDash : List Char → List String
  | [] => [""]
  | c :: cs =>
    match splitDash cs with
    | [] => [""]
    | s :: rest =>
      if c = '-' then "" :: s :: rest
      else (c.toString ++ s) :: rest

/-- `parseOkxSymbol`: JS destructuring `const [base, quote] =
symbol.split("-")`; empty or missing pieces are falsy. -/
def parseOkxSymbol (symbol : String) : Option (String × String) :=
  let parts := splitDash symbol.data
  match parts.get? 0, parts.get? 1 with
  | some b, some q => if b = "" ∨ q = "" then none else some (b, q)
  | _, _ => none

structure TriLeg where
  symbol : String
  side : Side
  fill_price : ℚ
  qty : ℚ
deriving DecidableEq, Repr

/-- The leg-chain walk of the `tri_arb` branch: `(final amount, execution
legs, hit an invalid symbol)`.  An invalid symbol sets the amount to 0
and breaks, exactly as the source loop does. -/
def triChainWalk : List TriPrice → ℚ → ℚ × List TriLeg × Bool
  | [], amount => (amount, [], false)
  | p :: rest, amount =>
    match parseOkxSymbol p.symbol with
    | none => (0, [], true)
    | some _ =>
      match p.side with
      | .buy =>
        let price := applySlippage p.ask .buy SLIPPAGE_BPS
        let qty := amount / price
        let filled := applyFee qty FEE_BPS
        let r := triChainWalk rest filled
        (r.1, { symbol := p.symbol, side := .buy, fill_price := price, qty := filled } :: r.2.1,
          r.2.2)
      | .sell =>
        let price := applySlippage p.bid .sell SLIPPAGE_BPS
        let quoteAmount := amount * price
        let filled := applyFee quoteAmount FEE_BPS
        let r := triChainWalk rest filled
        (r.1, { symbol := p.symbol, side := .sell, fill_price := price, qty := amount } :: r.2.1,
          r.2.2)

/-- The `tri_arb` execution branch: simulate the three legs against live
quotes and create an already-closed position with the realized
multiplicative outcome; the paper account is not touched. -/
def execTriBranch (opp : OpportunityRow) (notional reserved available : ℚ)
    (tri : ℕ → Except Unit RawTicker) : ExecOutcome :=
  let steps := parseSteps opp.details.steps
  if steps.length ≠ 3 then .skippedWith ["invalid_steps"]
  else
    match fetchOkxTrianglePrices tri steps with
    | .error _ => .skippedWith ["live_price_error"]
    | .ok prices =>
      let walk := triChainWalk prices notional
      if walk.2.2 then .skippedWith ["invalid_symbol", "amount_chain_failed"]
      else if walk.1 ≤ 0 then .skippedWith ["amount_chain_failed"]
      else if walk.1 ≤ notional then .skippedWith ["edge_evaporated"]
      else
        .created
          { symbol := opp.symbol
            status := "closed"
            entry_spot_price := none
            entry_perp_price := none
            spot_qty := 0
            perp_qty := 0
            realized_pnl_usd := some (round4 (walk.1 - notional))
            notional_usd := notional }
          reserved available

/-- One iteration of the execution loop: per-candidate gates, then the
strategy-specific branch. -/
def executeCandidate (acct : PaperAccount) (reserved available : ℚ) (env : CandEnv)
    (sc : ScoredOpportunity) : ExecOutcome :=
  if env.existingOpenForOpp then .skippedWith ["already_open"]
  else
    let derived := deriveNotional sc.opp.net_edge_bps sc.opp.details
      acct.min_notional_usd acct.max_notional_usd
    let notional := derived.notional
    if available < notional then .skippedWith ["insufficient_balance"]
    else if sc.opp.type = "spot_perp_carry" then
      execCarryBranch sc.opp notional reserved available env.carrySnapshot
    else if sc.opp.type = "xarb_spot" then
      execXarbBranch sc.opp notional reserved available env.xarbBuyTicker env.xarbSellTicker
    else if sc.opp.type = "tri_arb" then
      execTriBranch sc.opp notional reserved available env.tri
    else .skippedWith ["execution_not_supported"]

structure ExecState where
  reserved : ℚ
  available : ℚ
  created : List PositionRec
  reasons : List (ℕ × String)
deriving DecidableEq, Repr

def execLoop (acct : PaperAccount) (cand : ℕ → CandEnv) :
    ExecState → List ScoredOpportunity → ExecState
  | st, [] => st
  | st, sc :: rest =>
    match executeCandidate acct st.reserved st.available (cand sc.opp.id) sc with
    | .skippedWith rs =>
      execLoop acct cand
        { st with reasons := st.reasons ++ rs.map fun r => (sc.opp.id, r) } rest
    | .created pos r a =>
      execLoop acct cand
        { st with reserved := r, available := a, created := st.created ++ [pos] } rest

/-- Everything one `autoExecutePaper` tick reads. -/
structure TickEnv where
  account : PaperAccount
  openPositions : List OpenPositionIdRow
  recentCount : ℕ
  opportunities : List OpportunityRow
  weights : Option (List ℚ)
  usageRequests : ℕ
  llm : ℕ → LlmOutcome
  cand : ℕ → CandEnv

structure TickResult where
  created : List PositionRec
  reasons : List (ℕ × String)
  reservedAfter : ℚ
  llmUsed : ℕ
  usageAfter : ℕ
deriving DecidableEq, Repr

def zeroTickResult (reserved : ℚ) (usageRequests : ℕ) : TickResult :=
  { created := [], reasons := [], reservedAfter := reserved, llmUsed := 0
    usageAfter := usageRequests }

/-- One `autoExecutePaper` tick: early caps, candidate selection, the
re-ranker loop (whose rejection aborts the whole job), the usage-counter
upsert, the final re-sort, and the execution loop over the top
`MAX_EXECUTE_PER_TICK` candidates. -/
def autoExecutePaperModel (env : TickEnv) : Except Unit TickResult :=
  let balance := env.account.balance_usd
  let reserved := env.account.reserved_usd
  if MAX_OPEN_POSITIONS ≤ env.openPositions.length then
    .ok (zeroTickResult reserved env.usageRequests)
  else if MAX_NEW_PER_HOUR ≤ env.recentCount then
    .ok (zeroTickResult reserved env.usageRequests)
  else
    let remaining0 := MAX_LLM_CALLS_PER_DAY - env.usageRequests
    let scored := selectCandidates env.weights (buildOpenBySymbol env.openPositions)
      env.opportunities
    match rerankLoop env.llm scored remaining0 with
    | .error e => .error e
    | .ok out =>
      let llmUsed := out.countP fun p => p.2
      let finalScored := (out.map fun p => p.1).mergeSort
        (fun a b => decide (a.effectiveScore ≤ b.effectiveScore))
      let available := max 0 (balance - reserved)
      let st := execLoop env.account env.cand
        { reserved := reserved, available := available, created := [], reasons := [] }
        (finalScored.take MAX_EXECUTE_PER_TICK)
      .ok
        { created := st.created, reasons := st.reasons, reservedAfter := st.reserved
          llmUsed := llmUsed, usageAfter := llmUsageAfter env.usageRequests llmUsed }

/-- What the re-ranker loop is allowed to do to one candidate: an
unconsulted candidate is passed through unchanged, and a consulted one is
unchanged unless the call returned a score, in which case that score
becomes the effective score. -/
def rerankRel (llm : ℕ → LlmOutcome) (s : ScoredOpportunity)
    (p : ScoredOpportunity × Bool) : Prop :=
  (p.2 = false → p.1 = s) ∧
  (p.2 = true → ∀ sc, llm s.opp.id = .returns sc →
    p.1 = match sc with
          | some v => { s with aiScore := some v, effectiveScore := v }
          | none => s)

theorem rerankGo_ok (llm : ℕ → LlmOutcome) (hnothrow : ∀ i, llm i ≠ .throws) :
    ∀ (scored : List ScoredOpportunity) (idx used remaining : ℕ),
      ∃ out, rerankGo llm scored idx used remaining = .ok out ∧
        List.Forall₂ (rerankRel llm) scored out := by
  intro scored
  induction scored with
  | nil => exact fun _ _ _ => ⟨[], rfl, .nil⟩
  | cons opp rest ih =>
    intro idx used remaining
    by_cases hc : opp.variant = .B ∧ idx < MAX_LLM_RERANK ∧ 0 < remaining ∧
        used < MAX_LLM_CALLS_PER_TICK
    · rcases hllm : llm opp.opp.id with _ | score?
      · exact absurd hllm (hnothrow _)
      · obtain ⟨out, hout, hrel⟩ := ih (idx + 1) (used + 1) (remaining - 1)
        cases score? with
        | some s =>
          refine ⟨({ opp with aiScore := some s, effectiveScore := s }, true) :: out, ?_, ?_⟩
          · rw [rerankGo, if_pos hc, hllm, hout]
            rfl
          · refine List.Forall₂.cons ⟨fun hfalse => by simp at hfalse, ?_⟩ hrel
            intro _ sc hsc
            rw [hllm] at hsc
            cases hsc
            rfl
        | none =>
          refine ⟨(opp, true) :: out, ?_, ?_⟩
          · rw [rerankGo, if_pos hc, hllm, hout]
            rfl
          · refine List.Forall₂.cons ⟨fun hfalse => by simp at hfalse, ?_⟩ hrel
            intro _ sc hsc
            rw [hllm] at hsc
            cases hsc
            rfl
    · obtain ⟨out, hout, hrel⟩ := ih (idx + 1) used remaining
      refine ⟨(opp, false) :: out, ?_, ?_⟩
      · rw [rerankGo, if_neg hc, hout]
        rfl
      · exact List.Forall₂.cons ⟨fun _ => rfl, fun htrue => by simp at htrue⟩ hrel

/-- C5 amended: whenever every consulted `scoreWithOpenAI` call resolves
(does not reject), the re-ranker loop succeeds — the tick does not fail —
every candidate keeps its previously computed effective score unless its
call returned a score (which then overrides it), and the day's usage
counter is incremented by exactly the number of consulted calls.  A call
that rejects (a network-level `fetch` failure — a timeout cannot reject,
as the abort signal is never wired to `fetch`) instead propagates out of
the loop and aborts the job without recording its usage. -/
theorem rerank_fallback (llm : ℕ → LlmOutcome) (scored : List ScoredOpportunity)
    (remaining0 requests : ℕ) (hnothrow : ∀ i, llm i ≠ LlmOutcome.throws) :
    ∃ out, rerankLoop llm scored remaining0 = .ok out ∧
      List.Forall₂ (rerankRel llm) scored out ∧
      llmUsageAfter requests (out.countP fun p => p.2) =
        requests + (out.countP fun p => p.2) := by
  obtain ⟨out, hout, hrel⟩ := rerankGo_ok llm hnothrow scored 0 0 remaining0
  refine ⟨out, hout, hrel, ?_⟩
  unfold llmUsageAfter
  split <;> omega

theorem rerank_fallback_witness :
    (∀ i : ℕ, (fun _ => LlmOutcome.returns (none : Option ℚ)) i ≠ LlmOutcome.throws) ∧
    ∃ out,
      rerankLoop (fun _ => LlmOutcome.returns none) [mkScored none sampleCarryOpp] 500 =
        .ok out ∧
      List.Forall₂ (rerankRel fun _ => LlmOutcome.returns none)
        [mkScored none sampleCarryOpp] out ∧
      llmUsageAfter 0 (out.countP fun p => p.2) = 0 + (out.countP fun p => p.2) :=
  ⟨fun _ h => LlmOutcome.noConfusion h,
    rerank_fallback (fun _ => LlmOutcome.returns none) [mkScored none sampleCarryOpp]
      500 0 (fun _ h => LlmOutcome.noConfusion h)⟩

/-- A variant-B opportunity (odd id) with nothing special about it. -/
def rejectOpp : OpportunityRow :=
  { id := 1
    exchange := "okx"
    symbol := "ETHUSDT"
    type := "spot_perp_carry"
    net_edge_bps := some 5
    confidence := some (7 / 10)
    details := {} }

def emptyCandEnv : CandEnv :=
  { existingOpenForOpp := false
    carrySnapshot := none
    xarbBuyTicker := .error ()
    xarbSellTicker := .error ()
    tri := fun _ => .error () }

/-- A tick in which the single variant-B candidate's re-ranker `fetch`
rejects with a network-level failure (the 8-second timer cannot cause
this: `withTimeout` returns its `AbortController`'s signal but
`scoreWithOpenAI` never passes it to `fetch`, so `abort()` is a no-op). -/
def rejectTickEnv : TickEnv :=
  { account := { balance_usd := 10000, reserved_usd := 0, min_notional_usd := 100
                 max_notional_usd := 500 }
    openPositions := []
    recentCount := 0
    opportunities := [rejectOpp]
    weights := none
    usageRequests := 0
    llm := fun _ => LlmOutcome.throws
    cand := fun _ => emptyCandEnv }

/-- C5 fails as stated: a rejected re-ranker call (a network-level
`fetch` failure — not a timeout, which cannot reject since the abort
signal is never passed to `fetch`) is not caught anywhere in
`autoExecutePaper`, so the auto-execute job aborts: the candidate's kept
score is never used, nothing is executed, and the day's usage counter is
never incremented for the consulted call.  (The tick route's `runJob`
wrapper catches the throw, so the HTTP tick completes with
`auto_execute_failed` among its `job_errors`.) -/
theorem rerank_reject_counterexample :
    autoExecutePaperModel rejectTickEnv = .error () := by
  have hsel : selectCandidates none (buildOpenBySymbol []) [rejectOpp] =
      [mkScored none rejectOpp] := by
    simp [selectCandidates, scoreSortTake, buildOpenBySymbol, rejectOpp,
      MAX_CANDIDATES, MAX_OPEN_PER_SYMBOL]
  have hvar : (mkScored none rejectOpp).variant = Variant.B := by
    norm_num [mkScored, variantForOpportunity, rejectOpp]
  have hrg : rerankGo (fun _ => LlmOutcome.throws) [mkScored none rejectOpp] 0 0 500 =
      .error () := by
    rw [rerankGo, if_pos]
    exact ⟨hvar, by norm_num [MAX_LLM_RERANK], by norm_num,
      by norm_num [MAX_LLM_CALLS_PER_TICK]⟩
  simp [autoExecutePaperModel, rejectTickEnv, MAX_OPEN_POSITIONS, MAX_NEW_PER_HOUR,
    MAX_LLM_CALLS_PER_DAY, hsel, rerankLoop, hrg]

theorem execCarryBranch_created {opp : OpportunityRow} {notional reserved available : ℚ}
    {snapshot? : Option CarrySnapshotRow} {pos : PositionRec} {r a : ℚ}
    (h : execCarryBranch opp notional reserved available snapshot? = .created pos r a) :
    r = round2 (reserved + notional) ∧ a = round2 (available - notional) ∧
    pos.status = "open" ∧ pos.notional_usd = notional := by
  unfold execCarryBranch at h
  split at h
  · exact absurd h (by simp)
  · split at h
    · cases h
      exact ⟨rfl, rfl, rfl, rfl⟩
    · exact absurd h (by simp)

theorem execXarbBranch_created {opp : OpportunityRow} {notional reserved available : ℚ}
    {buyTicker sellTicker : Except Unit RawTicker} {pos : PositionRec} {r a : ℚ}
    (h : execXarbBranch opp notional reserved available buyTicker sellTicker =
      .created pos r a) :
    r = round2 (reserved + notional) ∧ a = round2 (available - notional) ∧
    pos.status = "open" ∧ pos.notional_usd = notional := by
  unfold execXarbBranch at h
  split at h
  · exact absurd h (by simp)
  · dsimp only at h
    split at h
    · exact absurd h (by simp)
    · split at h
      · exact absurd h (by simp)
      · cases h
        exact ⟨rfl, rfl, rfl, rfl⟩

theorem execTriBranch_created {opp : OpportunityRow} {notional reserved available : ℚ}
    {tri : ℕ → Except Unit RawTicker} {pos : PositionRec} {r a : ℚ}
    (h : execTriBranch opp notional reserved available tri = .created pos r a) :
    r = reserved ∧ a = available ∧ pos.status = "closed" ∧ pos.notional_usd = notional ∧
    ∃ prices, fetchOkxTrianglePrices tri (parseSteps opp.details.steps) = .ok prices ∧
      notional < (triChainWalk prices notional).1 ∧
      pos.realized_pnl_usd = some (round4 ((triChainWalk prices notional).1 - notional)) := by
  unfold execTriBranch at h
  dsimp only at h
  split at h
  · exact absurd h (by simp)
  · split at h
    · exact absurd h (by simp)
    · rename_i prices hprices
      split at h
      · exact absurd h (by simp)
      · split at h
        · exact absurd h (by simp)
        · split at h
          · exact absurd h (by simp)
          · rename_i hbad hpos hle
            cases h
            refine ⟨rfl, rfl, rfl, rfl, prices, hprices, by linarith [not_le.mp hle], rfl⟩

/-- Dispatch: a created `tri_arb` outcome comes from `execTriBranch` with
the derived notional. -/
theorem executeCandidate_tri {acct : PaperAccount} {reserved available : ℚ}
    {env : CandEnv} {sc : ScoredOpportunity} {pos : PositionRec} {r a : ℚ}
    (htype : sc.opp.type = "tri_arb")
    (h : executeCandidate acct reserved available env sc = .created pos r a) :
    execTriBranch sc.opp
      (deriveNotional sc.opp.net_edge_bps sc.opp.details acct.min_notional_usd
        acct.max_notional_usd).notional reserved available env.tri = .created pos r a := by
  unfold executeCandidate at h
  rw [htype] at h
  norm_num at h
  split at h
  · exact absurd h (by simp)
  · split at h
    · exact absurd h (by simp)
    · exact h

/-- Dispatch: a created `spot_perp_carry` or `xarb_spot` outcome comes
from its branch with the derived notional. -/
theorem executeCandidate_carry_or_xarb {acct : PaperAccount} {reserved available : ℚ}
    {env : CandEnv} {sc : ScoredOpportunity} {pos : PositionRec} {r a : ℚ}
    (htype : sc.opp.type = "spot_perp_carry" ∨ sc.opp.type = "xarb_spot")
    (h : executeCandidate acct reserved available env sc = .created pos r a) :
    let notional := (deriveNotional sc.opp.net_edge_bps sc.opp.details acct.min_notional_usd
      acct.max_notional_usd).notional
    execCarryBranch sc.opp notional reserved available env.carrySnapshot = .created pos r a ∨
    execXarbBranch sc.opp notional reserved available env.xarbBuyTicker env.xarbSellTicker =
      .created pos r a := by
  intro notional
  unfold executeCandidate at h
  rcases htype with htype | htype <;> rw [htype] at h <;> norm_num at h <;> split at h
  · exact absurd h (by simp)
  · split at h
    · exact absurd h (by simp)
    · exact Or.inl h
  · exact absurd h (by simp)
  · split at h
    · exact absurd h (by simp)
    · exact Or.inr h

/-- C8: a `tri_arb` execution creates an already-closed position with an
immediate realized PnL and leaves both `reserved_usd` and the available
capital unchanged, whereas a carry or cross-exchange execution creates an
open position and reserves its notional
(`reserved_usd := round2(reserved + notional)`). -/
theorem tri_execution_frame (acct : PaperAccount) (reserved available : ℚ)
    (env env' : CandEnv) (sc sc' : ScoredOpportunity) (pos pos' : PositionRec)
    (r a r' a' : ℚ) (htype : sc.opp.type = "tri_arb")
    (hrun : executeCandidate acct reserved available env sc = .created pos r a) :
    (pos.status = "closed" ∧ (∃ v, pos.realized_pnl_usd = some v) ∧
      r = reserved ∧ a = available) ∧
    ((sc'.opp.type = "spot_perp_carry" ∨ sc'.opp.type = "xarb_spot") →
      executeCandidate acct reserved available env' sc' = .created pos' r' a' →
      r' = round2 (reserved + pos'.notional_usd) ∧ pos'.status = "open") := by
  constructor
  · have h := executeCandidate_tri htype hrun
    obtain ⟨hr, ha, hst, _, prices, _, _, hreal⟩ := execTriBranch_created h
    exact ⟨hst, ⟨_, hreal⟩, hr, ha⟩
  · intro htype' hrun'
    have h := executeCandidate_carry_or_xarb htype' hrun'
    rcases h with h | h
    · obtain ⟨hr, _, hst, hn⟩ := execCarryBranch_created h
      rw [hr, hn]
      exact ⟨rfl, hst⟩
    · obtain ⟨hr, _, hst, hn⟩ := execXarbBranch_created h
      rw [hr, hn]
      exact ⟨rfl, hst⟩

/-- C10 amended: whenever a `tri_arb` chain walk completes (three steps,
all legs fetched, no invalid symbol), the branch skips with
`amount_chain_failed` when the final amount is nonpositive and with
`edge_evaporated` when it does not exceed the notional — no position is
written — and otherwise creates a position whose realized PnL is
`round4(amount − notional)`, which is nonnegative but can round to zero;
it is strictly positive whenever the chain profit reaches half a rounding
tick (`1/20000`). -/
theorem tri_realized_outcome (opp : OpportunityRow) (notional reserved available : ℚ)
    (tri : ℕ → Except Unit RawTicker) (prices : List TriPrice)
    (hlen : (parseSteps opp.details.steps).length = 3)
    (hfetch : fetchOkxTrianglePrices tri (parseSteps opp.details.steps) = .ok prices)
    (hnobad : (triChainWalk prices notional).2.2 = false) :
    ((triChainWalk prices notional).1 ≤ 0 →
      execTriBranch opp notional reserved available tri =
        .skippedWith ["amount_chain_failed"]) ∧
    (0 < (triChainWalk prices notional).1 →
      (triChainWalk prices notional).1 ≤ notional →
      execTriBranch opp notional reserved available tri =
        .skippedWith ["edge_evaporated"]) ∧
    (0 < (triChainWalk prices notional).1 →
      notional < (triChainWalk prices notional).1 →
      ∃ pos, execTriBranch opp notional reserved available tri =
          .created pos reserved available ∧
        pos.status = "closed" ∧
        pos.realized_pnl_usd = some (round4 ((triChainWalk prices notional).1 - notional)) ∧
        0 ≤ round4 ((triChainWalk prices notional).1 - notional) ∧
        (1 / 20000 ≤ (triChainWalk prices notional).1 - notional →
          0 < round4 ((triChainWalk prices notional).1 - notional))) := by
  have hbranch : execTriBranch opp notional reserved available tri =
      (if (triChainWalk prices notional).2.2 then
        ExecOutcome.skippedWith ["invalid_symbol", "amount_chain_failed"]
      else if (triChainWalk prices notional).1 ≤ 0 then
        ExecOutcome.skippedWith ["amount_chain_failed"]
      else if (triChainWalk prices notional).1 ≤ notional then
        ExecOutcome.skippedWith ["edge_evaporated"]
      else
        ExecOutcome.created
          { symbol := opp.symbol
            status := "closed"
            entry_spot_price := none
            entry_perp_price := none
            spot_qty := 0
            perp_qty := 0
            realized_pnl_usd := some (round4 ((triChainWalk prices notional).1 - notional))
            notional_usd := notional }
          reserved available) := by
    unfold execTriBranch
    rw [if_neg (by rw [hlen]; norm_num), hfetch]
  rw [hbranch, hnobad]
  simp only [Bool.false_eq_true, if_false]
  refine ⟨fun h0 => ?_, fun h0 hle => ?_, fun h0 hgt => ?_⟩
  · rw [if_pos h0]
  · rw [if_neg (by linarith), if_pos hle]
  · rw [if_neg (by linarith), if_neg (by linarith)]
    refine ⟨_, rfl, rfl, rfl, roundTo_nonneg (by linarith), fun htick => ?_⟩
    have htick' : 1 / (2 * (10 : ℚ) ^ 4) ≤ (triChainWalk prices notional).1 - notional := by
      norm_num
      linarith
    exact roundTo_pos htick'

/-! A concrete marginal triangle: three sell legs whose chain outcome
exceeds the notional by exactly `1/30000` dollars, which `toFixed(4)`
rounds to zero. -/

def accountDefault : PaperAccount :=
  { balance_usd := 10000, reserved_usd := 0, min_notional_usd := 100
    max_notional_usd := 500 }

def triExampleSteps : List RawStep :=
  [{ symbol := "A-B", side := "sell" }, { symbol := "B-C", side := "sell" },
   { symbol := "C-USDT", side := "sell" }]

def triExampleOpp : OpportunityRow :=
  { id := 7
    exchange := "okx"
    symbol := "USDT->BTC->ETH->USDT"
    type := "tri_arb"
    net_edge_bps := some 0
    confidence := some (14 / 25)
    details := { steps := triExampleSteps } }

/-- The third leg's bid, chosen so that
`100 · (slippage·fee factor)³ · (1 · 1 · bid) = 100 + 1/30000`. -/
def triMarginalBid : ℚ := (3000001 * 12500000 ^ 3) / (3000000 * 12492501 ^ 3)

def triExampleEnv : CandEnv :=
  { existingOpenForOpp := false
    carrySnapshot := none
    xarbBuyTicker := .error ()
    xarbSellTicker := .error ()
    tri := fun i =>
      if i = 2 then .ok { bid := some triMarginalBid, ask := some (triMarginalBid + 1) }
      else .ok { bid := some 1, ask := some 2 } }

def triExamplePrices : List TriPrice :=
  [{ symbol := "A-B", side := .sell, bid := 1, ask := 2 },
   { symbol := "B-C", side := .sell, bid := 1, ask := 2 },
   { symbol := "C-USDT", side := .sell, bid := triMarginalBid, ask := triMarginalBid + 1 }]

def triExamplePos : PositionRec :=
  { symbol := "USDT->BTC->ETH->USDT"
    status := "closed"
    entry_spot_price := none
    entry_perp_price := none
    spot_qty := 0
    perp_qty := 0
    realized_pnl_usd := some 0
    notional_usd := 100 }

theorem triExample_parseSteps :
    parseSteps triExampleOpp.details.steps =
      [{ symbol := "A-B", side := .sell }, { symbol := "B-C", side := .sell },
       { symbol := "C-USDT", side := .sell }] := by
  decide

theorem triExample_fetch :
    fetchOkxTrianglePrices triExampleEnv.tri
      [{ symbol := "A-B", side := Side.sell }, { symbol := "B-C", side := Side.sell },
       { symbol := "C-USDT", side := Side.sell }] = .ok triExamplePrices := by
  have hb : triMarginalBid =
      (3000001 * 12500000 ^ 3) / (3000000 * 12492501 ^ 3) := rfl
  simp [fetchOkxTrianglePrices, fetchTriangleFrom, triExampleEnv, validateTicker,
    triExamplePrices, Bind.bind, Except.bind, Pure.pure, Except.pure]
  norm_num [hb]

theorem triExample_walk :
    (triChainWalk triExamplePrices 100).1 = 100 + 1 / 30000 ∧
    (triChainWalk triExamplePrices 100).2.2 = false := by
  have hA : parseOkxSymbol "A-B" = some ("A", "B") := by decide
  have hB : parseOkxSymbol "B-C" = some ("B", "C") := by decide
  have hC : parseOkxSymbol "C-USDT" = some ("C", "USDT") := by decide
  refine ⟨?_, ?_⟩
  · simp [triChainWalk, triExamplePrices, hA, hB, hC, applySlippage, applyFee,
      SLIPPAGE_BPS, FEE_BPS]
    norm_num [triMarginalBid]
  · simp [triChainWalk, triExamplePrices, hA, hB, hC]

theorem triExample_run :
    executeCandidate accountDefault 0 10000 triExampleEnv (mkScored none triExampleOpp) =
      .created triExamplePos 0 10000 := by
  have hwalk := triExample_walk
  have hreal : round4 ((triChainWalk triExamplePrices 100).1 - 100) = 0 := by
    rw [hwalk.1]
    norm_num [round4, roundTo_eq_round, round_eq]
  have htri : execTriBranch triExampleOpp 100 0 10000 triExampleEnv.tri =
      .created triExamplePos 0 10000 := by
    unfold execTriBranch
    rw [triExample_parseSteps]
    norm_num [triExample_fetch]
    rw [hwalk.2]
    norm_num
    rw [if_neg (by rw [hwalk.1]; norm_num), if_neg (by rw [hwalk.1]; norm_num)]
    rw [show (100 : ℚ) = (100 : ℚ) from rfl] at hreal
    simp [triExamplePos, triExampleOpp, hreal]
  unfold executeCandidate
  norm_num [triExampleEnv, mkScored, triExampleOpp, deriveNotional, clampNotional,
    accountDefault, DEFAULT_NOTIONAL]
  exact htri

/-- C10 fails as stated: the marginal triangle is executed (all gates
pass, the chain outcome strictly exceeds the notional), yet the created
position's `realized_pnl_usd` is exactly 0 — not strictly positive —
because the `1/30000` profit rounds to zero at 4 decimals. -/
theorem tri_zero_realized_counterexample :
    executeCandidate accountDefault 0 10000 triExampleEnv (mkScored none triExampleOpp) =
      .created triExamplePos 0 10000 ∧
    triExamplePos.realized_pnl_usd = some 0 ∧ ¬ (0 : ℚ) < 0 :=
  ⟨triExample_run, rfl, by norm_num⟩

theorem tri_realized_outcome_witness :
    (parseSteps triExampleOpp.details.steps).length = 3 ∧
    (∃ pos, execTriBranch triExampleOpp 100 0 10000 triExampleEnv.tri =
        .created pos 0 10000 ∧
      pos.status = "closed" ∧
      pos.realized_pnl_usd =
        some (round4 ((triChainWalk triExamplePrices 100).1 - 100)) ∧
      0 ≤ round4 ((triChainWalk triExamplePrices 100).1 - 100) ∧
      (1 / 20000 ≤ (triChainWalk triExamplePrices 100).1 - 100 →
        0 < round4 ((triChainWalk triExamplePrices 100).1 - 100))) := by
  have hlen : (parseSteps triExampleOpp.details.steps).length = 3 := by
    rw [triExample_parseSteps]
    rfl
  have hfetch : fetchOkxTrianglePrices triExampleEnv.tri
      (parseSteps triExampleOpp.details.steps) = .ok triExamplePrices := by
    rw [triExample_parseSteps]
    exact triExample_fetch
  have hgt : (100 : ℚ) < (triChainWalk triExamplePrices 100).1 := by
    rw [triExample_walk.1]
    norm_num
  exact ⟨hlen,
    (tri_realized_outcome triExampleOpp 100 0 10000 triExampleEnv.tri triExamplePrices
      hlen hfetch triExample_walk.2).2.2 (by linarith) hgt⟩

theorem tri_execution_frame_witness :
    (mkScored none triExampleOpp).opp.type = "tri_arb" ∧
    (triExamplePos.status = "closed" ∧
      (∃ v, triExamplePos.realized_pnl_usd = some v) ∧ (0 : ℚ) = 0 ∧ (10000 : ℚ) = 10000) := by
  have htype : (mkScored none triExampleOpp).opp.type = "tri_arb" := rfl
  refine ⟨htype, ?_⟩
  exact (tri_execution_frame accountDefault 0 10000 triExampleEnv triExampleEnv
    (mkScored none triExampleOpp) (mkScored none triExampleOpp) triExamplePos triExamplePos
    0 10000 0 10000 htype triExample_run).1

/-- A carry candidate whose snapshot row has both limit prices executes
unconditionally (it reduces to the `created` arm of the branch). -/
theorem execCarryBranch_some (opp : OpportunityRow) (notional reserved available : ℚ)
    (sid : ℕ) (sa pb : ℚ) :
    ∃ pos, execCarryBranch opp notional reserved available
        (some { id := sid, spot_ask := some sa, perp_bid := some pb }) =
      .created pos (round2 (reserved + notional)) (round2 (available - notional)) ∧
      pos.symbol = opp.symbol ∧ pos.status = "open" ∧ pos.notional_usd = notional :=
  ⟨_, rfl, rfl, rfl, rfl⟩

/-- The fresh BTCUSDT carry opportunity of the C2 scenario (the values
`detectCarry` inserts for spec example 1). -/
def c2CarryOpp : OpportunityRow :=
  { id := 2
    exchange := "bybit"
    symbol := "BTCUSDT"
    type := "spot_perp_carry"
    net_edge_bps := some (999 / 25)
    confidence := some (7 / 10)
    details := { break_even_hours := some 0 } }

def c2CandEnv : CandEnv :=
  { existingOpenForOpp := false
    carrySnapshot := some { id := 5, spot_ask := some (1001 / 10), perp_bid := some (201 / 2) }
    xarbBuyTicker := .error ()
    xarbSellTicker := .error ()
    tri := fun _ => .error () }

/-- A tick whose positions table holds two open BTCUSDT positions (ids 11
and 12 — the job's query returns them as id-only rows) and one fresh
BTCUSDT carry opportunity. -/
def c2TickEnv : TickEnv :=
  { account := accountDefault
    openPositions := [{ id := 11 }, { id := 12 }]
    recentCount := 0
    opportunities := [c2CarryOpp]
    weights := none
    usageRequests := 500
    llm := fun _ => LlmOutcome.throws
    cand := fun _ => c2CandEnv }

/-- C2 (code bug): with two open BTCUSDT positions in the database — the
per-symbol cap of `MAX_OPEN_PER_SYMBOL = 2` already reached — the tick
still creates a third BTCUSDT position and reserves its notional, because
the open-positions query selects only `id` and the `openBySymbol` map is
built from rows that carry no symbol, so it is always empty. -/
theorem per_symbol_cap_not_enforced :
    buildOpenBySymbol [{ id := 11 }, { id := 12 }] "BTCUSDT" = 0 ∧
    MAX_OPEN_PER_SYMBOL = 2 ∧
    ∃ res, autoExecutePaperModel c2TickEnv = .ok res ∧
      res.created.map (fun p => p.symbol) = ["BTCUSDT"] ∧
      res.reservedAfter = 500 := by
  refine ⟨by simp [buildOpenBySymbol, openPositionRowSymbol], rfl, ?_⟩
  obtain ⟨pos, hbr, hsym, _, _⟩ :=
    execCarryBranch_some c2CarryOpp 500 0 10000 5 (1001 / 10) (201 / 2)
  rw [show ((0 : ℚ) + 500) = 500 by norm_num, show ((10000 : ℚ) - 500) = 9500 by norm_num] at hbr
  have hexec : executeCandidate accountDefault 0 10000 c2CandEnv
      (mkScored none c2CarryOpp) = .created pos (round2 500) (round2 9500) := by
    unfold executeCandidate
    norm_num [c2CandEnv, mkScored, c2CarryOpp, deriveNotional, clampNotional, accountDefault]
    exact hbr
  have hsel : selectCandidates none (buildOpenBySymbol [{ id := 11 }, { id := 12 }])
      [c2CarryOpp] = [mkScored none c2CarryOpp] := by
    simp [selectCandidates, scoreSortTake, buildOpenBySymbol, openPositionRowSymbol,
      c2CarryOpp, MAX_CANDIDATES, MAX_OPEN_PER_SYMBOL]
  have hrg : rerankGo (fun _ => LlmOutcome.throws) [mkScored none c2CarryOpp] 0 0 0 =
      .ok [(mkScored none c2CarryOpp, false)] := by
    rw [rerankGo, if_neg]
    · rw [rerankGo]
      rfl
    · intro hcond
      exact absurd hcond.2.2.1 (by norm_num)
  refine ⟨{ created := [pos], reasons := [], reservedAfter := round2 500
            llmUsed := 0, usageAfter := 500 }, ?_, ?_, ?_⟩
  · unfold autoExecutePaperModel
    rw [if_neg (by norm_num [MAX_OPEN_POSITIONS, c2TickEnv]),
        if_neg (by norm_num [MAX_NEW_PER_HOUR, c2TickEnv])]
    simp only [c2TickEnv, rerankLoop]
    rw [hsel, show MAX_LLM_CALLS_PER_DAY - 500 = 0 from rfl, hrg]
    simp only [List.map_cons, List.map_nil, List.countP_cons, List.countP_nil]
    rw [show ([mkScored none c2CarryOpp].mergeSort
        (fun a b => decide (a.effectiveScore ≤ b.effectiveScore))) =
        [mkScored none c2CarryOpp] by simp]
    rw [show List.take MAX_EXECUTE_PER_TICK [mkScored none c2CarryOpp] =
        [mkScored none c2CarryOpp] from rfl]
    rw [show accountDefault.balance_usd = 10000 from rfl,
        show accountDefault.reserved_usd = 0 from rfl,
        show max (0 : ℚ) (10000 - 0) = 10000 by norm_num]
    rw [execLoop.eq_def]
    dsimp only
    rw [hexec]
    dsimp only
    rw [execLoop.eq_def]
    rfl
  · simp [hsym, c2CarryOpp]
  · show round2 500 = 500
    norm_num [round2, roundTo_eq_round, round_eq]

/-! ## PnlAggregator (`computeDailyPnl.ts`) -/

/-- `STRATEGY_MAP[opp.type] ?? opp.type`. -/
def STRATEGY_MAP (t : String) : String :=
  if t = "spot_perp_carry" then "carry_spot_perp"
  else if t = "xarb_spot" then "xarb_spot"
  else if t = "tri_arb" then "tri_arb"
  else t

/-- The `opportunities` columns `computeDailyPnl` selects. -/
structure OppInfoRow where
  id : ℕ
  exchange : String
  symbol : String
  type : String
deriving DecidableEq, Repr

/-- A `positions` row as `computeDailyPnl` selects it (`exit_day` is
`exit_ts.slice(0, 10)` when `exit_ts` is a string; the `buy_*`/`sell_*`
fields are the `meta` entries of a cross-exchange position). -/
structure PositionRow where
  id : ℕ
  opportunity_id : Option ℕ
  status : String
  exit_day : Option String
  realized_pnl_usd : Option ℚ
  spot_qty : Option ℚ
  perp_qty : Option ℚ
  entry_spot_price : Option ℚ
  entry_perp_price : Option ℚ
  metaType : String
  buy_exchange : String
  sell_exchange : String
  buy_symbol : String
  sell_symbol : String
  buy_entry : ℚ
  sell_entry : ℚ
  buy_qty : ℚ
  sell_qty : ℚ
deriving DecidableEq, Repr

/-- The freshest `market_snapshots` row for one `(exchange, symbol)`. -/
structure SnapRow where
  spot_bid : Option ℚ
  spot_ask : Option ℚ
  perp_bid : Option ℚ
  perp_ask : Option ℚ
deriving DecidableEq, Repr

/-- `spot_mid` / `perp_mid`: the average when both sides are numbers,
else `null`. -/
def midOf : Option ℚ → Option ℚ → Option ℚ
  | some b, some a => some ((b + a) / 2)
  | _, _ => none

/-- The loop body of `computeDailyPnl` for one position: `none` when the
position is skipped (`continue`), otherwise
`(strategy_key, exchange_key, total_pnl)`.  JS truthiness makes a zero
mid-price skip like a missing one. -/
def positionPnl (today : String) (oppOf : ℕ → Option OppInfoRow) (feeOf : ℕ → ℚ)
    (snap : String → String → Option SnapRow) (p : PositionRow) :
    Option (String × String × ℚ) :=
  match p.opportunity_id with
  | none => none
  | some oid =>
    match oppOf oid with
    | none => none
    | some opp =>
      let strategy_key := STRATEGY_MAP opp.type
      let exchange_key := opp.exchange
      if p.status = "closed" ∧ p.exit_day = some today then
        some (strategy_key, exchange_key, p.realized_pnl_usd.getD 0)
      else if p.status = "open" ∧ opp.type = "spot_perp_carry" then
        match snap opp.exchange opp.symbol with
        | none => none
        | some s =>
          match midOf s.spot_bid s.spot_ask, midOf s.perp_bid s.perp_ask with
          | some spot_mid, some perp_mid =>
            if spot_mid = 0 ∨ perp_mid = 0 then none
            else
              let spot_pnl := p.spot_qty.getD 0 * (spot_mid - p.entry_spot_price.getD 0)
              let perp_pnl := p.perp_qty.getD 0 * (perp_mid - p.entry_perp_price.getD 0)
              some (strategy_key, exchange_key, spot_pnl + perp_pnl - feeOf p.id)
          | _, _ => none
      else if p.status = "open" ∧ opp.type = "xarb_spot" then
        if p.buy_exchange = "" ∨ p.buy_symbol = "" ∨ p.sell_exchange = "" ∨
            p.sell_symbol = "" then none
        else
          match (snap p.buy_exchange p.buy_symbol).bind fun s =>
              midOf s.spot_bid s.spot_ask,
            (snap p.sell_exchange p.sell_symbol).bind fun s =>
              midOf s.spot_bid s.spot_ask with
          | some buy_mid, some sell_mid =>
            if buy_mid = 0 ∨ sell_mid = 0 then none
            else
              let buy_pnl := p.buy_qty * (buy_mid - p.buy_entry)
              let sell_pnl := p.sell_qty * (p.sell_entry - sell_mid)
              some (strategy_key, exchange_key, buy_pnl + sell_pnl - feeOf p.id)
          | _, _ => none
      else none

/-- `pnlAgg.set(key, (pnlAgg.get(key) ?? 0) + total_pnl)` on an
insertion-ordered association list. -/
def addToAgg (agg : List ((String × String) × ℚ)) (key : String × String) (v : ℚ) :
    List ((String × String) × ℚ) :=
  if agg.any fun p => decide (p.1 = key) then
    agg.map fun p => if p.1 = key then (p.1, p.2 + v) else p
  else agg ++ [(key, v)]

/-- `pnlAgg.get(key) ?? 0`. -/
def lookupAgg (agg : List ((String × String) × ℚ)) (key : String × String) : ℚ :=
  match agg.find? fun p => decide (p.1 = key) with
  | some p => p.2
  | none => 0

/-- One iteration of the aggregation loop: skip (`continue`) or add the
contribution under its key. -/
def aggStep (today : String) (oppOf : ℕ → Option OppInfoRow) (feeOf : ℕ → ℚ)
    (snap : String → String → Option SnapRow)
    (agg : List ((String × String) × ℚ)) (p : PositionRow) :
    List ((String × String) × ℚ) :=
  match positionPnl today oppOf feeOf snap p with
  | none => agg
  | some r => addToAgg agg (r.1, r.2.1) r.2.2

/-- The aggregation loop of `computeDailyPnl`. -/
def computeDailyPnlAgg (today : String) (oppOf : ℕ → Option OppInfoRow)
    (feeOf : ℕ → ℚ) (snap : String → String → Option SnapRow)
    (positions : List PositionRow) : List ((String × String) × ℚ) :=
  positions.foldl (aggStep today oppOf feeOf snap) []

/-- The returned rows: one per aggregate key, `pnl_usd` rounded to
cents. -/
def computeDailyPnlRows (today : String) (oppOf : ℕ → Option OppInfoRow)
    (feeOf : ℕ → ℚ) (snap : String → String → Option SnapRow)
    (positions : List PositionRow) : List ((String × String) × ℚ) :=
  (computeDailyPnlAgg today oppOf feeOf snap positions).map fun p => (p.1, round2 p.2)

/-- The `daily_strategy_pnl` upsert with
`onConflict: "day,strategy_key,exchange_key"`: replace the row when the
key exists, else insert. -/
def upsertDailyPnl (store : List ((String × String × String) × ℚ))
    (k : String × String × String) (v : ℚ) : List ((String × String × String) × ℚ) :=
  if store.any fun p => decide (p.1 = k) then
    store.map fun p => if p.1 = k then (p.1, v) else p
  else store ++ [(k, v)]

/-- Upserting every returned row for `day`, in order (the write loop of
`computeDailyPnl`). -/
def applyDailyRows (store : List ((String × String × String) × ℚ)) (day : String)
    (rows : List ((String × String) × ℚ)) : List ((String × String × String) × ℚ) :=
  rows.foldl (fun st r => upsertDailyPnl st (day, r.1.1, r.1.2) r.2) store


/-- What one position's loop outcome contributes toward a given
aggregation key. -/
def keyAmount (key : String × String) : Option (String × String × ℚ) → ℚ
  | none => 0
  | some r => if (r.1, r.2.1) = key then r.2.2 else 0

theorem lookupAgg_cons (p : (String × String) × ℚ) (rest : List ((String × String) × ℚ))
    (k : String × String) :
    lookupAgg (p :: rest) k = if p.1 = k then p.2 else lookupAgg rest k := by
  simp only [lookupAgg, List.find?_cons]
  by_cases h : p.1 = k
  · simp [h]
  · simp [h, lookupAgg]

theorem lookupAgg_map_bump (agg : List ((String × String) × ℚ))
    (k : String × String) (v : ℚ) (k' : String × String) :
    lookupAgg (agg.map fun p => if p.1 = k then (p.1, p.2 + v) else p) k' =
      lookupAgg agg k' +
        (if k = k' ∧ (agg.any fun p => decide (p.1 = k)) = true then v else 0) := by
  induction agg with
  | nil => simp [lookupAgg]
  | cons p rest ih =>
    have hkey : (if p.1 = k then (p.1, p.2 + v) else p).1 = p.1 := by
      split <;> rfl
    simp only [List.map_cons, List.any_cons, lookupAgg_cons, hkey]
    by_cases hp' : p.1 = k'
    · by_cases hpk : p.1 = k
      · have hkk' : k = k' := hpk ▸ hp'
        simp [hp', hpk, hkk']
      · have hkk' : ¬ k = k' := fun h => hpk (h ▸ hp')
        have hk'k : ¬ k' = k := fun h => hkk' h.symm
        simp [hp', hpk, hkk', hk'k]
    · by_cases hpk : p.1 = k
      · have hkk' : ¬ k = k' := fun h => hp' (hpk.trans h)
        simp [hp', hpk, hkk', ih]
      · have hd : decide (p.1 = k) = false := by simp [hpk]
        rw [if_neg hp', if_neg hp']
        simp only [hd, Bool.false_or]
        exact ih

theorem lookupAgg_append_single (agg : List ((String × String) × ℚ))
    (k : String × String) (v : ℚ) (k' : String × String)
    (habs : (agg.any fun p => decide (p.1 = k)) = false) :
    lookupAgg (agg ++ [(k, v)]) k' = lookupAgg agg k' + (if k = k' then v else 0) := by
  induction agg with
  | nil =>
    simp only [List.nil_append, lookupAgg_cons, lookupAgg]
    by_cases h : k = k' <;> simp [h]
  | cons p rest ih =>
    simp only [List.any_cons, Bool.or_eq_false_iff] at habs
    obtain ⟨h1, h2⟩ := habs
    have hpk : ¬ p.1 = k := by simpa using h1
    simp only [List.cons_append, lookupAgg_cons]
    by_cases hp' : p.1 = k'
    · have hkk' : ¬ k = k' := fun h => hpk (h ▸ hp')
      simp [hp', hkk']
    · simp [hp', ih h2]

theorem lookupAgg_addToAgg (agg : List ((String × String) × ℚ))
    (k : String × String) (v : ℚ) (k' : String × String) :
    lookupAgg (addToAgg agg k v) k' = lookupAgg agg k' + (if k = k' then v else 0) := by
  unfold addToAgg
  by_cases hany : (agg.any fun p => decide (p.1 = k)) = true
  · rw [if_pos hany, lookupAgg_map_bump]
    simp [hany]
  · have hfalse : (agg.any fun p => decide (p.1 = k)) = false := by
      cases h : agg.any fun p => decide (p.1 = k)
      · rfl
      · exact absurd h hany
    rw [if_neg hany, lookupAgg_append_single agg k v k' hfalse]

theorem foldl_agg_lookup (today : String) (oppOf : ℕ → Option OppInfoRow)
    (feeOf : ℕ → ℚ) (snap : String → String → Option SnapRow) (key : String × String) :
    ∀ (positions : List PositionRow) (agg : List ((String × String) × ℚ)),
      lookupAgg (positions.foldl (aggStep today oppOf feeOf snap) agg) key =
      lookupAgg agg key +
        (positions.map fun p => keyAmount key (positionPnl today oppOf feeOf snap p)).sum := by
  intro positions
  induction positions with
  | nil => intro agg; simp
  | cons p rest ih =>
    intro agg
    simp only [List.foldl_cons, List.map_cons, List.sum_cons]
    rcases hp : positionPnl today oppOf feeOf snap p with _ | r
    · rw [show aggStep today oppOf feeOf snap agg p = agg from by unfold aggStep; rw [hp]]
      rw [ih]
      simp [keyAmount, hp]
    · rw [show aggStep today oppOf feeOf snap agg p = addToAgg agg (r.1, r.2.1) r.2.2 from
        by unfold aggStep; rw [hp]]
      rw [ih, lookupAgg_addToAgg]
      simp only [keyAmount, hp]
      ring

theorem computeDailyPnlAgg_lookup (today : String) (oppOf : ℕ → Option OppInfoRow)
    (feeOf : ℕ → ℚ) (snap : String → String → Option SnapRow)
    (positions : List PositionRow) (key : String × String) :
    lookupAgg (computeDailyPnlAgg today oppOf feeOf snap positions) key =
      (positions.map fun p => keyAmount key (positionPnl today oppOf feeOf snap p)).sum := by
  unfold computeDailyPnlAgg
  rw [foldl_agg_lookup]
  simp [lookupAgg]

/-- Whether the `daily_strategy_pnl` store already has a row under `k`. -/
def storeHasKey (store : List ((String × String × String) × ℚ))
    (k : String × String × String) : Bool :=
  store.any fun p => decide (p.1 = k)

/-- Every row of the store under key `k` carries the value `v`. -/
def storeAllVal (store : List ((String × String × String) × ℚ))
    (k : String × String × String) (v : ℚ) : Prop :=
  ∀ p ∈ store, p.1 = k → p.2 = v

theorem map_replace_noop (st : List ((String × String × String) × ℚ))
    (k : String × String × String) (v : ℚ) (h : storeAllVal st k v) :
    (st.map fun p => if p.1 = k then (p.1, v) else p) = st := by
  induction st with
  | nil => rfl
  | cons p rest ih =>
    have hr : storeAllVal rest k v := fun q hq hq1 => h q (List.mem_cons_of_mem _ hq) hq1
    simp only [List.map_cons, ih hr]
    by_cases hp : p.1 = k
    · rw [if_pos hp, ← h p (List.mem_cons_self _ _) hp]
    · rw [if_neg hp]

theorem upsert_map_keys (st : List ((String × String × String) × ℚ))
    (k : String × String × String) (v : ℚ) :
    ((st.map fun p => if p.1 = k then (p.1, v) else p).map Prod.fst) =
      st.map Prod.fst := by
  rw [List.map_map]
  rw [show (Prod.fst ∘ fun p : (String × String × String) × ℚ =>
      if p.1 = k then (p.1, v) else p) = Prod.fst from funext fun p => by
    show (if p.1 = k then (p.1, v) else p).1 = p.1
    split <;> rfl]

theorem storeHasKey_iff_mem (st : List ((String × String × String) × ℚ))
    (k : String × String × String) :
    storeHasKey st k = true ↔ k ∈ st.map Prod.fst := by
  unfold storeHasKey
  rw [List.any_eq_true]
  constructor
  · rintro ⟨p, hp, hpk⟩
    have hpk' : p.1 = k := by simpa using hpk
    exact hpk' ▸ List.mem_map_of_mem Prod.fst hp
  · intro hk
    rcases List.mem_map.mp hk with ⟨p, hp, hpk⟩
    exact ⟨p, hp, by simpa using hpk⟩

theorem storeHasKey_upsert_self (st : List ((String × String × String) × ℚ))
    (k : String × String × String) (v : ℚ) :
    storeHasKey (upsertDailyPnl st k v) k = true := by
  unfold upsertDailyPnl
  by_cases h : st.any fun p => decide (p.1 = k)
  · rw [if_pos h, storeHasKey_iff_mem, upsert_map_keys, ← storeHasKey_iff_mem]
    exact h
  · rw [if_neg h]
    simp [storeHasKey]

theorem storeAllVal_upsert_self (st : List ((String × String × String) × ℚ))
    (k : String × String × String) (v : ℚ) :
    storeAllVal (upsertDailyPnl st k v) k v := by
  unfold upsertDailyPnl
  by_cases h : st.any fun p => decide (p.1 = k)
  · rw [if_pos h]
    intro q hq hq1
    rcases List.mem_map.mp hq with ⟨p, hp, rfl⟩
    by_cases hpk : p.1 = k
    · simp [hpk]
    · rw [if_neg hpk] at hq1
      exact absurd hq1 hpk
  · rw [if_neg h]
    intro q hq hq1
    rcases List.mem_append.mp hq with hq | hq
    · exfalso
      exact h (List.any_eq_true.mpr ⟨q, hq, by simpa using hq1⟩)
    · rw [List.mem_singleton] at hq
      subst hq
      rfl

theorem storeHasKey_upsert_mono (st : List ((String × String × String) × ℚ))
    (k k' : String × String × String) (v : ℚ)
    (h : storeHasKey st k = true) :
    storeHasKey (upsertDailyPnl st k' v) k = true := by
  unfold upsertDailyPnl
  by_cases hc : st.any fun p => decide (p.1 = k')
  · rw [if_pos hc, storeHasKey_iff_mem, upsert_map_keys, ← storeHasKey_iff_mem]
    exact h
  · rw [if_neg hc]
    unfold storeHasKey at h ⊢
    simp [List.any_append, h]

theorem storeAllVal_upsert_other (st : List ((String × String × String) × ℚ))
    (k k' : String × String × String) (v v' : ℚ)
    (hne : k' ≠ k) (h : storeAllVal st k v) :
    storeAllVal (upsertDailyPnl st k' v') k v := by
  unfold upsertDailyPnl
  by_cases hc : st.any fun p => decide (p.1 = k')
  · rw [if_pos hc]
    intro q hq hq1
    rcases List.mem_map.mp hq with ⟨p, hp, rfl⟩
    by_cases hpk : p.1 = k'
    · rw [if_pos hpk] at hq1
      have hq1' : p.1 = k := hq1
      exact absurd (hpk.symm.trans hq1') hne
    · rw [if_neg hpk] at hq1 ⊢
      exact h p hp hq1
  · rw [if_neg hc]
    intro q hq hq1
    rcases List.mem_append.mp hq with hq | hq
    · exact h q hq hq1
    · rw [List.mem_singleton] at hq
      subst hq
      exact absurd hq1 hne

theorem upsert_noop (st : List ((String × String × String) × ℚ))
    (k : String × String × String) (v : ℚ)
    (h1 : storeHasKey st k = true) (h2 : storeAllVal st k v) :
    upsertDailyPnl st k v = st := by
  unfold upsertDailyPnl
  unfold storeHasKey at h1
  rw [if_pos h1]
  exact map_replace_noop st k v h2

theorem applyDailyRows_cons (st : List ((String × String × String) × ℚ))
    (day : String) (r : (String × String) × ℚ) (rest : List ((String × String) × ℚ)) :
    applyDailyRows st day (r :: rest) =
      applyDailyRows (upsertDailyPnl st (day, r.1.1, r.1.2) r.2) day rest := rfl

theorem applyDailyRows_preserve (day : String) :
    ∀ (rows : List ((String × String) × ℚ)) (st : List ((String × String × String) × ℚ))
      (k : String × String × String) (v : ℚ),
      (∀ r ∈ rows, (day, r.1.1, r.1.2) ≠ k) →
      storeHasKey st k = true → storeAllVal st k v →
      storeHasKey (applyDailyRows st day rows) k = true ∧
        storeAllVal (applyDailyRows st day rows) k v := by
  intro rows
  induction rows with
  | nil => intro st k v _ h1 h2; exact ⟨h1, h2⟩
  | cons r rest ih =>
    intro st k v hne h1 h2
    have hner : (day, r.1.1, r.1.2) ≠ k := hne r (List.mem_cons_self _ _)
    rw [applyDailyRows_cons]
    exact ih (upsertDailyPnl st (day, r.1.1, r.1.2) r.2) k v
      (fun q hq => hne q (List.mem_cons_of_mem _ hq))
      (storeHasKey_upsert_mono _ _ _ _ h1)
      (storeAllVal_upsert_other _ _ _ _ _ hner h2)

theorem applyDailyRows_establishes (day : String) :
    ∀ (rows : List ((String × String) × ℚ)) (st : List ((String × String × String) × ℚ)),
      (rows.map Prod.fst).Nodup →
      ∀ r ∈ rows, storeHasKey (applyDailyRows st day rows) (day, r.1.1, r.1.2) = true ∧
        storeAllVal (applyDailyRows st day rows) (day, r.1.1, r.1.2) r.2 := by
  intro rows
  induction rows with
  | nil => intro st _ r hr; exact absurd hr (List.not_mem_nil r)
  | cons q rest ih =>
    intro st hnd r hr
    rw [applyDailyRows_cons]
    rw [List.map_cons, List.nodup_cons] at hnd
    rcases List.mem_cons.mp hr with heq | hr
    · subst heq
      have hkeys : ∀ s ∈ rest, (day, s.1.1, s.1.2) ≠ (day, r.1.1, r.1.2) := by
        intro s hs hkey
        have hfs : s.1 = r.1 := by
          have h1 : s.1.1 = r.1.1 := congrArg (fun t : String × String × String => t.2.1) hkey
          have h2 : s.1.2 = r.1.2 := congrArg (fun t : String × String × String => t.2.2) hkey
          exact Prod.ext h1 h2
        exact hnd.1 (hfs ▸ List.mem_map_of_mem Prod.fst hs)
      exact applyDailyRows_preserve day rest _ _ _ hkeys
        (storeHasKey_upsert_self _ _ _) (storeAllVal_upsert_self _ _ _)
    · exact ih (upsertDailyPnl st (day, q.1.1, q.1.2) q.2) hnd.2 r hr

theorem applyDailyRows_noop (day : String) :
    ∀ (rows : List ((String × String) × ℚ)) (st : List ((String × String × String) × ℚ)),
      (∀ r ∈ rows, storeHasKey st (day, r.1.1, r.1.2) = true ∧
        storeAllVal st (day, r.1.1, r.1.2) r.2) →
      applyDailyRows st day rows = st := by
  intro rows
  induction rows with
  | nil => intro st _; rfl
  | cons r rest ih =>
    intro st h
    have hr := h r (List.mem_cons_self _ _)
    rw [applyDailyRows_cons, upsert_noop st _ _ hr.1 hr.2]
    exact ih st fun q hq => h q (List.mem_cons_of_mem _ hq)

theorem applyDailyRows_idem (day : String) (rows : List ((String × String) × ℚ))
    (st : List ((String × String × String) × ℚ))
    (hnd : (rows.map Prod.fst).Nodup) :
    applyDailyRows (applyDailyRows st day rows) day rows =
      applyDailyRows st day rows :=
  applyDailyRows_noop day rows _ fun r hr =>
    applyDailyRows_establishes day rows st hnd r hr

theorem addToAgg_keys_nodup (agg : List ((String × String) × ℚ))
    (k : String × String) (v : ℚ) (h : (agg.map Prod.fst).Nodup) :
    ((addToAgg agg k v).map Prod.fst).Nodup := by
  unfold addToAgg
  by_cases hany : agg.any fun p => decide (p.1 = k)
  · rw [if_pos hany, List.map_map]
    rw [show (Prod.fst ∘ fun p : (String × String) × ℚ =>
        if p.1 = k then (p.1, p.2 + v) else p) = Prod.fst from funext fun p => by
      show (if p.1 = k then (p.1, p.2 + v) else p).1 = p.1
      split <;> rfl]
    exact h
  · rw [if_neg hany, List.map_append]
    rw [List.nodup_append]
    refine ⟨h, List.nodup_singleton k, ?_⟩
    intro x hx hx'
    simp only [List.map_cons, List.map_nil, List.mem_singleton] at hx'
    subst hx'
    rcases List.mem_map.mp hx with ⟨p, hp, hpk⟩
    exact hany (List.any_eq_true.mpr ⟨p, hp, by simpa using hpk⟩)

theorem computeDailyPnlAgg_keys_nodup (today : String)
    (oppOf : ℕ → Option OppInfoRow) (feeOf : ℕ → ℚ)
    (snap : String → String → Option SnapRow) (positions : List PositionRow) :
    ((computeDailyPnlAgg today oppOf feeOf snap positions).map Prod.fst).Nodup := by
  unfold computeDailyPnlAgg
  suffices h : ∀ (ps : List PositionRow) (agg : List ((String × String) × ℚ)),
      (agg.map Prod.fst).Nodup →
      ((ps.foldl (aggStep today oppOf feeOf snap) agg).map Prod.fst).Nodup from
    h positions [] (by simp)
  intro ps
  induction ps with
  | nil => intro agg h; simpa using h
  | cons p rest ih =>
    intro agg h
    rw [List.foldl_cons]
    apply ih
    unfold aggStep
    rcases positionPnl today oppOf feeOf snap p with _ | r
    · exact h
    · exact addToAgg_keys_nodup _ _ _ h

theorem computeDailyPnlRows_keys_nodup (today : String)
    (oppOf : ℕ → Option OppInfoRow) (feeOf : ℕ → ℚ)
    (snap : String → String → Option SnapRow) (positions : List PositionRow) :
    ((computeDailyPnlRows today oppOf feeOf snap positions).map Prod.fst).Nodup := by
  unfold computeDailyPnlRows
  rw [List.map_map]
  rw [show (Prod.fst ∘ fun p : (String × String) × ℚ => (p.1, round2 p.2)) =
      Prod.fst from funext fun p => rfl]
  exact computeDailyPnlAgg_keys_nodup today oppOf feeOf snap positions

/-- C6: `computeDailyPnl` values each open carry position at the current
mid-price mark minus accumulated fees, uses the stored realized PnL for a
position closed today, aggregates totals by `(strategy_key, exchange_key)`
(each aggregate value is the sum of its positions' contributions), and the
`daily_strategy_pnl` upsert keyed by `(day, strategy_key, exchange_key)` is
idempotent: re-running the write loop on unchanged rows leaves the store
unchanged, not additively compounded. -/
theorem computeDailyPnl_spec (today : String) (oppOf : ℕ → Option OppInfoRow)
    (feeOf : ℕ → ℚ) (snap : String → String → Option SnapRow)
    (positions : List PositionRow)
    (store : List ((String × String × String) × ℚ)) :
    (∀ key, lookupAgg (computeDailyPnlAgg today oppOf feeOf snap positions) key =
      (positions.map fun p => keyAmount key (positionPnl today oppOf feeOf snap p)).sum) ∧
    (∀ p : PositionRow, ∀ oid opp, p.opportunity_id = some oid → oppOf oid = some opp →
      p.status = "closed" → p.exit_day = some today →
      positionPnl today oppOf feeOf snap p =
        some (STRATEGY_MAP opp.type, opp.exchange, p.realized_pnl_usd.getD 0)) ∧
    (∀ p : PositionRow, ∀ oid opp s spot_mid perp_mid,
      p.opportunity_id = some oid → oppOf oid = some opp →
      p.status = "open" → opp.type = "spot_perp_carry" →
      snap opp.exchange opp.symbol = some s →
      midOf s.spot_bid s.spot_ask = some spot_mid →
      midOf s.perp_bid s.perp_ask = some perp_mid →
      spot_mid ≠ 0 → perp_mid ≠ 0 →
      positionPnl today oppOf feeOf snap p =
        some (STRATEGY_MAP opp.type, opp.exchange,
          p.spot_qty.getD 0 * (spot_mid - p.entry_spot_price.getD 0) +
            p.perp_qty.getD 0 * (perp_mid - p.entry_perp_price.getD 0) - feeOf p.id)) ∧
    applyDailyRows
        (applyDailyRows store today (computeDailyPnlRows today oppOf feeOf snap positions))
        today (computeDailyPnlRows today oppOf feeOf snap positions) =
      applyDailyRows store today (computeDailyPnlRows today oppOf feeOf snap positions) := by
  refine ⟨fun key => computeDailyPnlAgg_lookup today oppOf feeOf snap positions key,
    ?_, ?_, ?_⟩
  · intro p oid opp hoid hopp hst hday
    unfold positionPnl
    rw [hoid]
    dsimp only
    rw [hopp]
    dsimp only
    rw [if_pos ⟨hst, hday⟩]
  · intro p oid opp s spot_mid perp_mid hoid hopp hst htype hsnap hsm hpm hsz hpz
    unfold positionPnl
    rw [hoid]
    dsimp only
    rw [hopp]
    dsimp only
    rw [if_neg ?hnc, if_pos ⟨hst, htype⟩, hsnap]
    case hnc =>
      intro hc
      rw [hst] at hc
      exact absurd hc.1 (by decide)
    dsimp only
    rw [hsm, hpm]
    dsimp only
    rw [if_neg ?hnz]
    case hnz =>
      rintro (h | h)
      · exact hsz h
      · exact hpz h
  · exact applyDailyRows_idem today _ store
      (computeDailyPnlRows_keys_nodup today oppOf feeOf snap positions)

/-- A concrete `opportunities` row for exercising the PnL aggregator. -/
def c6Opp : OppInfoRow :=
  { id := 1
    exchange := "okx"
    symbol := "BTCUSDT"
    type := "spot_perp_carry" }

def c6OppOf : ℕ → Option OppInfoRow := fun n => if n = 1 then some c6Opp else none

def c6FeeOf : ℕ → ℚ := fun _ => 1

/-- A fresh snapshot: spot mid 101, perp mid 104. -/
def c6SnapRow : SnapRow :=
  { spot_bid := some 100
    spot_ask := some 102
    perp_bid := some 103
    perp_ask := some 105 }

def c6Snap : String → String → Option SnapRow := fun e s =>
  if e = "okx" ∧ s = "BTCUSDT" then some c6SnapRow else none

/-- An open carry position: spot leg +2 @ 100, perp leg +1 @ 105, fees 1. -/
def c6Pos : PositionRow :=
  { id := 7
    opportunity_id := some 1
    status := "open"
    exit_day := none
    realized_pnl_usd := none
    spot_qty := some 2
    perp_qty := some 1
    entry_spot_price := some 100
    entry_perp_price := some 105
    metaType := ""
    buy_exchange := ""
    sell_exchange := ""
    buy_symbol := ""
    sell_symbol := ""
    buy_entry := 0
    sell_entry := 0
    buy_qty := 0
    sell_qty := 0 }

def c6Rows : List ((String × String) × ℚ) :=
  computeDailyPnlRows "2026-10-12" c6OppOf c6FeeOf c6Snap [c6Pos]

theorem computeDailyPnl_spec_witness :
    positionPnl "2026-10-12" c6OppOf c6FeeOf c6Snap c6Pos =
      some ("carry_spot_perp", "okx", 0) ∧
    applyDailyRows (applyDailyRows [] "2026-10-12" c6Rows) "2026-10-12" c6Rows =
      applyDailyRows [] "2026-10-12" c6Rows := by
  have h := computeDailyPnl_spec "2026-10-12" c6OppOf c6FeeOf c6Snap [c6Pos] []
  refine ⟨?_, h.2.2.2⟩
  have h3 := h.2.2.1 c6Pos 1 c6Opp c6SnapRow 101 104 rfl rfl rfl rfl
    (by simp [c6Snap, c6Opp]) (by norm_num [midOf, c6SnapRow])
    (by norm_num [midOf, c6SnapRow]) (by norm_num) (by norm_num)
  rw [h3]
  norm_num [c6Pos, c6Opp, c6FeeOf, STRATEGY_MAP]


theorem paperFill_direction_witness :
    (0 : ℤ) < 1000000 ∧ (0 : ℚ) < 2 ∧
    ((1000000 : ℤ) : ℚ) / 10000 ≤
      (paperFill (fillInput .buy (((1000000 : ℤ) : ℚ) / 10000) 100 2 4)).fill_price :=
  ⟨by norm_num, by norm_num,
    (paperFill_direction 1000000 100 2 4 (by norm_num) (by norm_num)).1⟩

end Arbiter
